import Mathlib

set_option maxRecDepth 8000

/-!
Shallow embedding of the nixip sources (serialise.mjs, crc.mjs, constants.mjs,
nip.mjs, nixip_read.mjs) as executable Lean definitions, followed by theorems
settling the claims about them.  Buffers are lists of byte values (naturals
below 256 whenever produced by the encoders); JavaScript numbers and BigInts
are both modelled as naturals, with Node's runtime range checks made explicit
as Except errors where a claim depends on them.
-/

/-- The error kinds surfaced by the JavaScript runtime in the modelled code:
a TypeError (redefining a non-configurable property, or reading a property of
null), a Node buffer RangeError (value or offset out of range), and the
invalid-argument TypeError writeBigUInt64LE raises when handed undefined
instead of a BigInt. -/
inductive JSError where
  | typeError
  | rangeError
  | invalidArg
deriving DecidableEq

/-- Little-endian encoding of value `v` into exactly `w` bytes, the byte-level
effect of Node's writeUInt16LE / writeUInt32LE / writeBigUInt64LE once the
value is known to be in range. -/
def writeLE : Nat → Nat → List Nat
  | 0, _ => []
  | w + 1, v => v % 256 :: writeLE w (v / 256)

/-- Little-endian read of `w` bytes from the front of `l`, the byte-level
effect of Node's readUInt16LE / readUInt32LE / readBigUInt64LE.  Bytes past
the end of the list read as zero; every modelled call stays in bounds (the
struct decoder checks the buffer length up front, mirroring Node's throw). -/
def readLE : Nat → List Nat → Nat
  | 0, _ => 0
  | _ + 1, [] => 0
  | w + 1, b :: t => b + 256 * readLE w t

/-- serialise.mjs Types / TypeSizes: the three field widths (u16, u32, u64). -/
inductive Ty where
  | u16
  | u32
  | u64
deriving DecidableEq

/-- serialise.mjs TypeSizes: byte width of each field type. -/
def TypeSizes : Ty → Nat
  | .u16 => 2
  | .u32 => 4
  | .u64 => 8

/-- serialise.mjs Defaults: the zero value of each width (0, 0, 0n). -/
def Defaults : Ty → Nat := fun _ => 0

/-- One `[name, type, literal]` tuple of a record definition; a two-element
tuple of the source is modelled with `literal := none`. -/
structure FieldDef where
  name : String
  ty : Ty
  literal : Option Nat
deriving DecidableEq

/-- A record definition: the ordered field list handed to the Struct
constructor and to createBufferForStruct. -/
abbrev StructDef := List FieldDef

/-- Caller data: a name-keyed record of supplied field values, modelled as an
association list (`lookupData` is `data[name]`, `none` meaning undefined). -/
abbrev Data := List (String × Nat)

/-- `data[name]`: the value supplied for a field, if any. -/
def lookupData (d : Data) (n : String) : Option Nat :=
  (d.find? (fun p => p.1 == n)).map (·.2)

/-- One entry of a constructed Struct: `entries[name] = {type, value}` paired
with its position in `entryOrder`. -/
structure Entry where
  name : String
  ty : Ty
  value : Nat
deriving DecidableEq

/-- A constructed Struct instance.  Because the constructor throws on a
repeated field name (see `mkStruct`), the entry list always has pairwise
distinct names, so it models both `entryOrder` and the name-keyed `entries`
object (whose iteration order is insertion order) at once. -/
structure StructM where
  entries : List Entry
deriving DecidableEq

/-- The value stored for a field by the Struct constructor:
`data[name] ?? literal`, with `addEntry` replacing a missing result
(null/undefined) by the zero default of the width. -/
def chooseValue (d : Data) (f : FieldDef) : Nat :=
  match lookupData d f.name with
  | some v => v
  | none => f.literal.getD 0

/-- The entry the Struct constructor creates for a definition field. -/
def mkEntry (d : Data) (f : FieldDef) : Entry :=
  ⟨f.name, f.ty, chooseValue d f⟩

/-- Loop of the Struct constructor (`definition.forEach` calling `addEntry`).
`addEntry` runs Object.defineProperty with an accessor descriptor and no
`configurable` attribute, so the property it defines is non-configurable;
when a later definition entry repeats a name, redefining that own property
throws a TypeError and construction fails.  This is why a repeated field name
is modelled as an error. -/
def mkStructAux (d : Data) : StructDef → List Entry → Except JSError (List Entry)
  | [], acc => .ok acc
  | f :: rest, acc =>
    if f.name ∈ acc.map Entry.name then
      .error .typeError
    else
      mkStructAux d rest (acc ++ [mkEntry d f])

/-- `new Struct(definition, data)`. -/
def mkStruct (df : StructDef) (d : Data) : Except JSError StructM :=
  (mkStructAux d df []).map StructM.mk

/-- Sum of the widths of an entry list. -/
def structSizeOf (es : List Entry) : Nat :=
  (es.map (fun e => TypeSizes e.ty)).sum

/-- The Struct `size` getter: sum of the widths of the (distinct-name)
entries. -/
def StructM.size (s : StructM) : Nat := structSizeOf s.entries

/-- The Struct `numEntries` getter: length of `entryOrder`. -/
def StructM.numEntries (s : StructM) : Nat := s.entries.length

/-- `entryOrder` of a constructed struct. -/
def StructM.entryOrder (s : StructM) : List String := s.entries.map Entry.name

/-- Concatenated little-endian encodings of an entry list, in order: the
bytes `writeToBuffer` produces when every value is in range. -/
def payloadOf : List Entry → List Nat
  | [] => []
  | e :: t => writeLE (TypeSizes e.ty) e.value ++ payloadOf t

/-- One buffer write of `writeToBuffer`: Node range-checks the value against
the field width and throws a RangeError when it does not fit. -/
def writeEntry (e : Entry) : Except JSError (List Nat) :=
  if e.value < 256 ^ TypeSizes e.ty then .ok (writeLE (TypeSizes e.ty) e.value)
  else .error .rangeError

/-- The write loop of `Struct.writeToBuffer` (equivalently `createBuffer`
with no extra space): each entry written in `entryOrder` at its cumulative
offset. -/
def writeEntries : List Entry → Except JSError (List Nat)
  | [] => .ok []
  | e :: t => do
    let b ← writeEntry e
    let rest ← writeEntries t
    .ok (b ++ rest)

/-- `Struct.writeToBuffer` into an exactly-sized fresh buffer: the emitted
bytes. -/
def StructM.writeToBuffer (s : StructM) : Except JSError (List Nat) :=
  writeEntries s.entries

/-- The read loop of `Struct.readFromBuffer`: iterate the name-keyed entries
(one read per distinct name, in insertion order), overwriting each value with
the bytes at the running offset. -/
def readEntries (buf : List Nat) : Nat → List Entry → List Entry
  | _, [] => []
  | off, e :: t =>
    ⟨e.name, e.ty, readLE (TypeSizes e.ty) (buf.drop off)⟩ ::
      readEntries buf (off + TypeSizes e.ty) t

/-- `Struct.readFromBuffer(buffer, offset)`: returns the updated struct and
`bytePos - offset` (the consumed byte count).  Node throws a RangeError when
a read falls outside the buffer; the bound is checked up front here, which
agrees with the source whenever the buffer covers the whole struct. -/
def StructM.readFromBuffer (s : StructM) (buf : List Nat) (off : Nat) :
    Except JSError (StructM × Nat) :=
  if off + s.size ≤ buf.length then
    .ok (⟨readEntries buf off s.entries⟩, s.size)
  else .error .rangeError

/-- `Struct.FromBuffer(definition, buffer, offset)`: construct with no data,
then read.  Construction itself throws on a definition with a repeated field
name. -/
def Struct.FromBuffer (df : StructDef) (buf : List Nat) (off : Nat) :
    Except JSError StructM := do
  let s ← mkStruct df []
  let r ← s.readFromBuffer buf off
  .ok r.1

/-- Value of a named field of a constructed struct (the synthesized property
getter). -/
def StructM.valueOf (s : StructM) (n : String) : Option Nat :=
  (s.entries.find? (fun e => e.name == n)).map Entry.value

/-- `Struct.sizeFrom(entryName, inclusive)`: null (none) for an unknown name,
otherwise the summed widths of the entries after (or from, when inclusive)
the named one. -/
def StructM.sizeFrom (s : StructM) (n : String) (inclusive : Bool) : Option Nat :=
  match s.entryOrder.findIdx? (fun m => m == n) with
  | none => none
  | some i => some (structSizeOf (s.entries.drop (if inclusive then i else i + 1)))

/-- `Struct.sizeUntil(entryName, inclusive)`: null (none) for an unknown
name, otherwise the summed widths of the entries before (or through, when
inclusive) the named one; at index 0 non-inclusive the JS loop bound `i <= -1`
makes the sum empty, matching `take 0`. -/
def StructM.sizeUntil (s : StructM) (n : String) (inclusive : Bool) : Option Nat :=
  match s.entryOrder.findIdx? (fun m => m == n) with
  | none => none
  | some i => some (structSizeOf (s.entries.take (if inclusive then i + 1 else i)))

/-- prepareStructs (serialise helper): the advertised wire size of a raw
definition, summing the width of every listed field, repeated names counted
each time they appear. -/
def byteSizeOfDef (df : StructDef) : Nat :=
  (df.map (fun f => TypeSizes f.ty)).sum

/-- One write of createBufferForStruct: `data[name] ?? literal` handed to the
Node write function.  An out-of-range value throws a RangeError.  When a
field has neither a datum nor a literal, the behaviour depends on the width:
writeUInt16LE and writeUInt32LE coerce undefined to NaN, which passes Node's
checkInt range test (`value > max || value < min` is false for NaN), and the
bitwise stores then write zero bytes; only the 8-byte writeBigUInt64LE
throws a TypeError, because undefined is not a BigInt. -/
def writeDefField (d : Data) (f : FieldDef) : Except JSError (List Nat) :=
  match lookupData d f.name with
  | some v =>
    if v < 256 ^ TypeSizes f.ty then .ok (writeLE (TypeSizes f.ty) v)
    else .error .rangeError
  | none =>
    match f.literal with
    | some v =>
      if v < 256 ^ TypeSizes f.ty then .ok (writeLE (TypeSizes f.ty) v)
      else .error .rangeError
    | none =>
      match f.ty with
      | .u64 => .error .invalidArg
      | _ => .ok (writeLE (TypeSizes f.ty) 0)

/-- The write loop of createBufferForStruct over the raw definition list:
a repeated field name is written once per occurrence. -/
def writeDefFields : StructDef → Data → Except JSError (List Nat)
  | [], _ => .ok []
  | f :: t, d => do
    let b ← writeDefField d f
    let rest ← writeDefFields t d
    .ok (b ++ rest)

/-- createBufferForStruct(struct, data, extraSpaceAfter, extraSpaceBefore):
a zeroed buffer of the padded wire size with every definition field written
in order starting at extraSpaceBefore; returns the buffer and the final write
position. -/
def createBufferForStruct (df : StructDef) (d : Data) (extraSpaceAfter extraSpaceBefore : Nat) :
    Except JSError (List Nat × Nat) := do
  let b ← writeDefFields df d
  .ok (List.replicate extraSpaceBefore 0 ++ b ++ List.replicate extraSpaceAfter 0,
       extraSpaceBefore + b.length)

/-- constants.mjs signature: central directory header. -/
def Signatures.centralDirectoryHeader : Nat := 0x02014b50

/-- constants.mjs signature: local file header. -/
def Signatures.localFileHeader : Nat := 0x04034b50

/-- constants.mjs signature: end of central directory. -/
def Signatures.endOfCentralDirectory : Nat := 0x06054b50

/-- constants.mjs signature: zip64 end of central directory record. -/
def Signatures.zip64EndOfCentralDirectory : Nat := 0x06064b50

/-- constants.mjs signature: zip64 end of central directory locator. -/
def Signatures.zip64EndOfCentralDirectoryLocator : Nat := 0x07064b50

/-- constants.mjs signature: data descriptor. -/
def Signatures.dataDescriptor : Nat := 0x08074b50

/-- constants.mjs Structs.zip64EndOfCentralDirectoryRecord; note the field
"numEntries" is listed twice, as in the source. -/
def zip64EndOfCentralDirectoryRecordDef : StructDef :=
  [⟨"signature", .u32, some Signatures.zip64EndOfCentralDirectory⟩,
   ⟨"sizeOfCentralDirectoryRecord", .u64, none⟩,
   ⟨"versionMadeBy", .u16, some 45⟩,
   ⟨"versionNeededToExtract", .u16, some 45⟩,
   ⟨"diskNumber", .u32, some 0⟩,
   ⟨"diskNumberWithinCentralDirectory", .u32, some 0⟩,
   ⟨"numEntries", .u64, none⟩,
   ⟨"numEntries", .u64, none⟩,
   ⟨"centralDirectorySize", .u64, none⟩,
   ⟨"centralDirectoryStart", .u64, none⟩]

/-- constants.mjs Structs.endOfCentralDirectoryRecord; "numEntries" is listed
twice, as in the source. -/
def endOfCentralDirectoryRecordDef : StructDef :=
  [⟨"signature", .u32, some Signatures.endOfCentralDirectory⟩,
   ⟨"diskNumber", .u16, some 0⟩,
   ⟨"diskNumberWithinCentralDirectory", .u16, some 0⟩,
   ⟨"numEntries", .u16, none⟩,
   ⟨"numEntries", .u16, none⟩,
   ⟨"centralDirectorySize", .u32, none⟩,
   ⟨"centralDirectoryStart", .u32, none⟩,
   ⟨"zipFileCommentLength", .u16, none⟩]

/-- constants.mjs Structs.zip64EndOfCentralDirectoryLocator. -/
def zip64EndOfCentralDirectoryLocatorDef : StructDef :=
  [⟨"signature", .u32, some Signatures.zip64EndOfCentralDirectoryLocator⟩,
   ⟨"numDisksBeforeStart", .u32, some 0⟩,
   ⟨"relativeOffset", .u64, none⟩,
   ⟨"totalNumberOfDisks", .u32, some 1⟩]

/-- constants.mjs Structs.zip64DataDescriptor. -/
def zip64DataDescriptorDef : StructDef :=
  [⟨"signature", .u32, some Signatures.dataDescriptor⟩,
   ⟨"crc32", .u32, none⟩,
   ⟨"compressedSize", .u64, none⟩,
   ⟨"uncompressedSize", .u64, none⟩]

/-- crc.mjs table construction: one round of the reflected CRC-32 polynomial
0xEDB88320 ("if low bit set, XOR with polynomial after right-shift; else
right-shift"). -/
def crcRound (c : Nat) : Nat :=
  if c &&& 1 = 1 then 0xedb88320 ^^^ (c >>> 1) else c >>> 1

/-- crc.mjs crcTable: eight rounds applied to the byte value.  JavaScript's
signed 32-bit XOR is observationally equal to natural-number XOR here because
every consumer of the value only looks at the low 32 bits. -/
def crcTable (i : Nat) : Nat := crcRound^[8] i

/-- crc.mjs updateCRC(chunk, crc): one table-lookup step per byte. -/
def updateCRC (chunk : List Nat) (crc : Nat) : Nat :=
  chunk.foldl (fun c b => (c >>> 8) ^^^ crcTable ((c ^^^ b) &&& 0xff)) crc

/-- Folding updateCRC over a chunked stream, as crcFile and the writer's
first pipeline stage do. -/
def updateCRCFold (chunks : List (List Nat)) (crc : Nat) : Nat :=
  chunks.foldl (fun c ch => updateCRC ch c) crc

/-- The standard CRC-32 of a byte sequence: seed 0xFFFFFFFF, fold, invert
(crcFile's composition). -/
def crcOfBytes (data : List Nat) : Nat :=
  updateCRC data 0xffffffff ^^^ 0xffffffff

/-- The per-entry metadata record of nip.mjs (createFileInfoObject's shape).
File name and comment are byte buffers; every numeric field is a natural. -/
structure FileInfo where
  versionNeededToExtract : Nat
  generalPurposeBitFlag : Nat
  compressionMethod : Nat
  lastModFileTime : Nat
  lastModFileDate : Nat
  crc32 : Nat
  compressedSize : Nat
  uncompressedSize : Nat
  fileName : List Nat
  versionMadeby : Nat
  fileComment : List Nat
  diskNumberStart : Nat
  internalFileAttributes : Nat
  externalFileAttributes : Nat
  relativeOffsetOfLocalHeader : Nat
deriving DecidableEq

/-- The zip64Fields object of createFileHeader: which of the three promotable
values were captured for the ZIP64 extra field, and the captured values. -/
structure Zip64Fields where
  uncompressedSize : Option Nat := none
  compressedSize : Option Nat := none
  relativeOffsetOfLocalHeader : Option Nat := none
deriving DecidableEq

/-- `Object.keys(zip64Fields).length`. -/
def Zip64Fields.count (z : Zip64Fields) : Nat :=
  (if z.uncompressedSize.isSome then 1 else 0) +
  (if z.compressedSize.isSome then 1 else 0) +
  (if z.relativeOffsetOfLocalHeader.isSome then 1 else 0)

/-- An optional 8-byte write of createZIP64ExtraField. -/
def optWrite8 : Option Nat → List Nat
  | some v => writeLE 8 v
  | none => []

/-- nip.mjs createZIP64ExtraField: tag 0x0001, payload length, then the
present fields in fixed order (uncompressed size, compressed size, offset);
sizes are written as zero in a local-header extra field. -/
def createZIP64ExtraField (z : Zip64Fields) (isCentralDirectory : Bool) : List Nat :=
  writeLE 2 0x0001 ++ writeLE 2 (8 * z.count) ++
  optWrite8 (z.uncompressedSize.map (fun u => if isCentralDirectory then u else 0)) ++
  optWrite8 (z.compressedSize.map (fun c => if isCentralDirectory then c else 0)) ++
  optWrite8 z.relativeOffsetOfLocalHeader

/-- The zip64Fields createFileHeader captures for an entry: for a
central-directory header, both sizes when either size reaches 0xFFFFFFFF,
and the offset when it exceeds 0xFFFFFFFF; nothing for a local header. -/
def zip64FieldsOf (fi : FileInfo) (isCentralDirectory : Bool) : Zip64Fields :=
  if isCentralDirectory then
    let sz : Zip64Fields :=
      if 0xffffffff ≤ fi.uncompressedSize ∨ 0xffffffff ≤ fi.compressedSize then
        { uncompressedSize := some fi.uncompressedSize,
          compressedSize := some fi.compressedSize }
      else {}
    if 0xffffffff < fi.relativeOffsetOfLocalHeader then
      { sz with relativeOffsetOfLocalHeader := some fi.relativeOffsetOfLocalHeader }
    else sz
  else {}

/-- The sentinel overwriting createFileHeader applies to its local copy of
the file info before emitting the primary header fields. -/
def promoteInfo (fi : FileInfo) (isCentralDirectory : Bool) : FileInfo :=
  if isCentralDirectory then
    let fi1 :=
      if 0xffffffff ≤ fi.uncompressedSize ∨ 0xffffffff ≤ fi.compressedSize then
        { fi with uncompressedSize := 0xffffffff, compressedSize := 0xffffffff }
      else fi
    if 0xffffffff < fi1.relativeOffsetOfLocalHeader then
      { fi1 with relativeOffsetOfLocalHeader := 0xffffffff }
    else fi1
  else fi

/-- The ZIP64 extra field attached to a header: present only when at least
one field was captured (zip64Header stays null otherwise). -/
def extraFieldOf (fi : FileInfo) (isCentralDirectory : Bool) : List Nat :=
  let z := zip64FieldsOf fi isCentralDirectory
  if 0 < z.count then createZIP64ExtraField z isCentralDirectory else []

/-- The fixed 46-byte field sequence of a central-directory header, one entry
per buffer write of createFileHeader, in source order (disk number start is
written as the literal 0 in the source). -/
def cdHeaderEntries (fi : FileInfo) (extraLen : Nat) : List Entry :=
  [⟨"signature", .u32, Signatures.centralDirectoryHeader⟩,
   ⟨"versionMadeby", .u16, fi.versionMadeby⟩,
   ⟨"versionNeededToExtract", .u16, fi.versionNeededToExtract⟩,
   ⟨"generalPurposeBitFlag", .u16, fi.generalPurposeBitFlag⟩,
   ⟨"compressionMethod", .u16, fi.compressionMethod⟩,
   ⟨"lastModFileTime", .u16, fi.lastModFileTime⟩,
   ⟨"lastModFileDate", .u16, fi.lastModFileDate⟩,
   ⟨"crc32", .u32, fi.crc32⟩,
   ⟨"compressedSize", .u32, fi.compressedSize⟩,
   ⟨"uncompressedSize", .u32, fi.uncompressedSize⟩,
   ⟨"fileNameLength", .u16, fi.fileName.length⟩,
   ⟨"extraFieldLength", .u16, extraLen⟩,
   ⟨"fileCommentLength", .u16, fi.fileComment.length⟩,
   ⟨"diskNumberStart", .u16, 0⟩,
   ⟨"internalFileAttributes", .u16, fi.internalFileAttributes⟩,
   ⟨"externalFileAttributes", .u32, fi.externalFileAttributes⟩,
   ⟨"relativeOffsetOfLocalHeader", .u32, fi.relativeOffsetOfLocalHeader⟩]

/-- The fixed 30-byte field sequence of a local file header; CRC and both
sizes are written as zero because bit 3 of the flag word promises a trailing
data descriptor. -/
def localHeaderEntries (fi : FileInfo) (extraLen : Nat) : List Entry :=
  [⟨"signature", .u32, Signatures.localFileHeader⟩,
   ⟨"versionNeededToExtract", .u16, fi.versionNeededToExtract⟩,
   ⟨"generalPurposeBitFlag", .u16, fi.generalPurposeBitFlag⟩,
   ⟨"compressionMethod", .u16, fi.compressionMethod⟩,
   ⟨"lastModFileTime", .u16, fi.lastModFileTime⟩,
   ⟨"lastModFileDate", .u16, fi.lastModFileDate⟩,
   ⟨"crc32", .u32, 0⟩,
   ⟨"compressedSize", .u32, 0⟩,
   ⟨"uncompressedSize", .u32, 0⟩,
   ⟨"fileNameLength", .u16, fi.fileName.length⟩,
   ⟨"extraFieldLength", .u16, extraLen⟩]

/-- nip.mjs createFileHeader: sentinel promotion (central directory only),
then the fixed fields, file name, optional ZIP64 extra field and, for a
central-directory header, the file comment. -/
def createFileHeader (fi0 : FileInfo) (isCentralDirectory : Bool) : List Nat :=
  let fi := promoteInfo fi0 isCentralDirectory
  let extra := extraFieldOf fi0 isCentralDirectory
  if isCentralDirectory then
    payloadOf (cdHeaderEntries fi extra.length) ++ fi.fileName ++ extra ++ fi.fileComment
  else
    payloadOf (localHeaderEntries fi extra.length) ++ fi.fileName ++ extra

/-- In-range side conditions under which every Node buffer write inside
createFileHeader succeeds (Node throws a RangeError otherwise). -/
def WellFormedInfo (fi : FileInfo) : Prop :=
  fi.versionNeededToExtract < 2 ^ 16 ∧ fi.generalPurposeBitFlag < 2 ^ 16 ∧
  fi.compressionMethod < 2 ^ 16 ∧ fi.lastModFileTime < 2 ^ 16 ∧
  fi.lastModFileDate < 2 ^ 16 ∧ fi.crc32 < 2 ^ 32 ∧
  fi.compressedSize < 2 ^ 64 ∧ fi.uncompressedSize < 2 ^ 64 ∧
  fi.fileName.length < 2 ^ 16 ∧ fi.versionMadeby < 2 ^ 16 ∧
  fi.fileComment.length < 2 ^ 16 ∧ fi.internalFileAttributes < 2 ^ 16 ∧
  fi.externalFileAttributes < 2 ^ 32 ∧ fi.relativeOffsetOfLocalHeader < 2 ^ 64

instance (fi : FileInfo) : Decidable (WellFormedInfo fi) := by
  unfold WellFormedInfo
  infer_instance

/-- nip.mjs createZIP64EndOfCentralDirectoryRecord: the 56-byte record built
through createBufferForStruct, with sizeOfCentralDirectoryRecord fixed at
56 - 12 = 44. -/
def createZIP64EndOfCentralDirectoryRecord (centralDirectoryStart centralDirectorySize numEntries : Nat) :
    Except JSError (List Nat) :=
  (createBufferForStruct zip64EndOfCentralDirectoryRecordDef
    [("sizeOfCentralDirectoryRecord", 44),
     ("numEntries", numEntries),
     ("centralDirectorySize", centralDirectorySize),
     ("centralDirectoryStart", centralDirectoryStart)] 0 0).map (·.1)

/-- nip.mjs createZIP64EndOfCentralDirectoryLocator. -/
def createZIP64EndOfCentralDirectoryLocator (relativeOffset : Nat) :
    Except JSError (List Nat) :=
  (createBufferForStruct zip64EndOfCentralDirectoryLocatorDef
    [("relativeOffset", relativeOffset)] 0 0).map (·.1)

/-- nip.mjs createEndOfCentralDirectoryRecord with the default empty comment
(the only form the writer uses): entry count and the central-directory
size/start are clamped to their 16/32-bit sentinels before encoding. -/
def createEndOfCentralDirectoryRecord (centralDirectoryStart centralDirectorySize numEntries : Nat) :
    Except JSError (List Nat) :=
  (createBufferForStruct endOfCentralDirectoryRecordDef
    [("numEntries", if 0xffff ≤ numEntries then 0xffff else numEntries),
     ("centralDirectorySize",
       if 0xffffffff ≤ centralDirectorySize then 0xffffffff else centralDirectorySize),
     ("centralDirectoryStart",
       if 0xffffffff ≤ centralDirectoryStart then 0xffffffff else centralDirectoryStart),
     ("zipFileCommentLength", 0)] 0 0).map (·.1)

/-- nip.mjs createZIP64DataDescriptor: signature literal plus the entry's
CRC and 64-bit sizes. -/
def createZIP64DataDescriptor (fi : FileInfo) : Except JSError (List Nat) :=
  (createBufferForStruct zip64DataDescriptorDef
    [("crc32", fi.crc32),
     ("compressedSize", fi.compressedSize),
     ("uncompressedSize", fi.uncompressedSize)] 0 0).map (·.1)

/-- nip.mjs writer state: the byte stream handed to the output sink since
startZip, the running offset counter, and the entry list. -/
structure ZipState where
  sink : List Nat
  currentPosInWriteStream : Nat
  fileInfoList : List FileInfo
deriving DecidableEq

/-- nip.mjs startZip. -/
def startZip : ZipState :=
  ⟨[], 0, []⟩

/-- A write of `buf` to the output stream whose length is added to the
offset counter (the pattern used for headers, payload chunks and the data
descriptor). -/
def writeChunk (st : ZipState) (buf : List Nat) : ZipState :=
  ⟨st.sink ++ buf, st.currentPosInWriteStream + buf.length, st.fileInfoList⟩

/-- A write of `buf` whose boolean return value (the stream's backpressure
flag) is added to the offset counter, as in the three
`currentPosInWriteStream += state.writeStream.write(...)` lines of endZip:
JavaScript coerces true to 1 and false to 0. -/
def writeChunkBool (st : ZipState) (buf : List Nat) (writeReturn : Bool) : ZipState :=
  ⟨st.sink ++ buf, st.currentPosInWriteStream + (if writeReturn then 1 else 0),
   st.fileInfoList⟩

/-- nip.mjs createFileInfoObject: the freshly created entry, offset fixed at
the writer's current position, CRC seeded with 0xFFFFFFFF, sizes zero,
deflate compression, descriptor and UTF-8 flag bits set. -/
def createFileInfoObject (fileName : List Nat) (localHeaderOffset : Nat) : FileInfo :=
  { versionNeededToExtract := 45
    generalPurposeBitFlag := (1 <<< 3) ||| (1 <<< 11)
    compressionMethod := 8
    lastModFileTime := 0
    lastModFileDate := 0
    crc32 := 0xffffffff
    compressedSize := 0
    uncompressedSize := 0
    fileName := fileName
    versionMadeby := 45
    fileComment := []
    diskNumberStart := 0
    internalFileAttributes := 0
    externalFileAttributes := 0
    relativeOffsetOfLocalHeader := localHeaderOffset }

/-- addFileToZip, header step: create the entry at the current offset, write
its local file header and advance the counter by the header's length. -/
def addFileHeaderStage (st : ZipState) (fileName : List Nat) : ZipState × FileInfo :=
  let fi0 := createFileInfoObject fileName st.currentPosInWriteStream
  (writeChunk st (createFileHeader fi0 false), fi0)

/-- addFileToZip, streaming step: each compressed chunk leaving the deflate
stage is counted by the second transform and relayed to the sink.  The
compression stage is opaque, so its output is a parameter. -/
def addFileStreamStage (st : ZipState) (deflatedChunks : List (List Nat)) : ZipState :=
  deflatedChunks.foldl writeChunk st

/-- The entry after the pipeline drains: the first transform accumulated the
raw length and the CRC (chunk splitting does not change the fold), the
second accumulated the compressed length, and the CRC is then inverted. -/
def finalizeInfo (fi0 : FileInfo) (data : List Nat) (deflatedChunks : List (List Nat)) : FileInfo :=
  { fi0 with
    uncompressedSize := data.length
    compressedSize := (deflatedChunks.map List.length).sum
    crc32 := updateCRC data fi0.crc32 ^^^ 0xffffffff }

/-- nip.mjs addFileToZip: local header, streamed payload, then the ZIP64
data descriptor; `data` is the raw input byte stream and `deflatedChunks`
the opaque compression stage's output chunks. -/
def addFileToZip (st : ZipState) (fileName data : List Nat)
    (deflatedChunks : List (List Nat)) : Except JSError ZipState := do
  let (st1, fi0) := addFileHeaderStage st fileName
  let st2 := addFileStreamStage st1 deflatedChunks
  let fi1 := finalizeInfo fi0 data deflatedChunks
  let dd ← createZIP64DataDescriptor fi1
  let st3 := writeChunk st2 dd
  .ok { st3 with fileInfoList := st.fileInfoList ++ [fi1] }

/-- endZip, central-directory step: one central-directory header per entry,
in insertion order, each advancing the counter by its length. -/
def endZipCentralStage (st : ZipState) : ZipState :=
  st.fileInfoList.foldl (fun s fi => writeChunk s (createFileHeader fi true)) st

/-- endZip, trailer step: ZIP64 end record, ZIP64 locator and the standard
end record.  For these three writes the source adds the boolean return of
`writeStream.write` to the offset counter instead of the byte count, so each
takes the stream's backpressure flag as a parameter. -/
def endZipRecords (st1 : ZipState) (centralDirectoryStartPos : Nat)
    (b1 b2 b3 : Bool) : Except JSError ZipState := do
  let centralDirectorySize := st1.currentPosInWriteStream - centralDirectoryStartPos
  let zr ← createZIP64EndOfCentralDirectoryRecord centralDirectoryStartPos
    centralDirectorySize st1.fileInfoList.length
  let endRecordOffset := st1.currentPosInWriteStream
  let st2 := writeChunkBool st1 zr b1
  let loc ← createZIP64EndOfCentralDirectoryLocator endRecordOffset
  let st3 := writeChunkBool st2 loc b2
  let er ← createEndOfCentralDirectoryRecord centralDirectoryStartPos
    centralDirectorySize st1.fileInfoList.length
  .ok (writeChunkBool st3 er b3)

/-- nip.mjs endZip: central directory then the three trailer records. -/
def endZip (st : ZipState) (b1 b2 b3 : Bool) : Except JSError ZipState :=
  endZipRecords (endZipCentralStage st) st.currentPosInWriteStream b1 b2 b3

/-- The offset counter and the number of bytes handed to the sink, for a
state that may have failed: the pair the bookkeeping invariant compares. -/
def posLen (e : Except JSError ZipState) : Option (Nat × Nat) :=
  e.toOption.map (fun s => (s.currentPosInWriteStream, s.sink.length))

/-- nixip_read.mjs searchSize: the backward-scan window. -/
def searchSize : Nat := 2048

/-- The 4 little-endian bytes of the ZIP64 locator signature that
findZip64Locator searches for. -/
def sigBytes : List Nat := writeLE 4 Signatures.zip64EndOfCentralDirectoryLocator

/-- `fd.read(..., length, position)` as a pure slice of the file bytes. -/
def sliceRead (file : List Nat) (position len : Nat) : List Nat :=
  (file.drop position).take len

/-- Does `pat` occur at the head of `l` in full? -/
def listStartsWith : List Nat → List Nat → Bool
  | [], _ => true
  | _ :: _, [] => false
  | p :: ps, b :: bs => p == b && listStartsWith ps bs

/-- Scanning loop of `buffer.indexOf`: first index at which the pattern
occurs in full. -/
def bufIndexOfAux (pat : List Nat) : List Nat → Nat → Option Nat
  | [], _ => none
  | b :: t, i =>
    if listStartsWith pat (b :: t) then some i else bufIndexOfAux pat t (i + 1)

/-- `buffer.indexOf(pat)`, with none for the source's -1. -/
def bufIndexOf (buf pat : List Nat) : Option Nat :=
  bufIndexOfAux pat buf 0

/-- Result of one successful round of the findZip64Locator while loop. -/
structure FindResult where
  position : Nat
  bufferOffset : Nat
  buffer : List Nat
  lastBytesRead : Nat
deriving DecidableEq

/-- The while loop of findZip64Locator, fuel-indexed: each round reads a
window at `max(0, fileSize - searchSize - negativeOffset)` over the previous
buffer contents (the single 2048-byte buffer is reused, so bytes past
bytesRead keep their old values), searches the whole buffer for the
signature, and on failure grows negativeOffset by `searchSize - 4`.  The
source loop has no exit when the signature is never found; `none` here means
the loop is still running when the fuel runs out. -/
def findLoop (file : List Nat) : Nat → Nat → List Nat → Option FindResult
  | 0, _, _ => none
  | fuel + 1, negativeOffset, buffer =>
    let position := file.length - searchSize - negativeOffset
    let bytesRead := min searchSize (file.length - position)
    let buffer1 := sliceRead file position bytesRead ++ buffer.drop bytesRead
    match bufIndexOf buffer1 sigBytes with
    | some idx => some ⟨position, idx, buffer1, bytesRead⟩
    | none => findLoop file fuel (negativeOffset + (searchSize - 4)) buffer1

/-- nixip_read.mjs findZip64Locator: run the scan loop from a zeroed buffer;
on success take `signatureOffset = position + bufferOffset` (an absolute file
offset) and compare `lastBytesRead - signatureOffset` against the 20-byte
locator size — when that (possibly negative) difference is below 20 the
re-read branch is an empty stub and the function returns null; otherwise the
locator record is decoded from the window buffer at signatureOffset.  The
outer `none` means the scan loop never terminated within the fuel. -/
def findZip64Locator (file : List Nat) (fuel : Nat) :
    Option (Except JSError (Option StructM)) :=
  match findLoop file fuel 0 (List.replicate searchSize 0) with
  | none => none
  | some r =>
    let signatureOffset := r.position + r.bufferOffset
    if (r.lastBytesRead : Int) - (signatureOffset : Int) < 20 then
      some (.ok none)
    else
      some ((Struct.FromBuffer zip64EndOfCentralDirectoryLocatorDef
        r.buffer signatureOffset).map some)

/-- nixip_read.mjs readZip composed with the end-record decode: find the
locator (a null locator makes the subsequent property access throw a
TypeError), construct a Struct for the ZIP64 end-of-central-directory
definition (which throws on the repeated "numEntries" name), read the
fixed-size end record at the locator's relativeOffset, and return the
decoded (centralDirectoryStart, centralDirectorySize) pair. -/
def readZip (file : List Nat) (fuel : Nat) :
    Option (Except JSError (Nat × Nat)) :=
  match findZip64Locator file fuel with
  | none => none
  | some r =>
    some (do
      let locOpt ← r
      match locOpt with
      | none => .error .typeError
      | some loc => do
        let s ← mkStruct zip64EndOfCentralDirectoryRecordDef []
        let size := s.size
        let relOff := (loc.valueOf "relativeOffset").getD 0
        let endBuf := sliceRead file relOff size ++
          List.replicate (size - (file.length - relOff)) 0
        let r2 ← s.readFromBuffer endBuf 0
        .ok (((r2.1.valueOf "centralDirectoryStart").getD 0),
             ((r2.1.valueOf "centralDirectorySize").getD 0)))

/-- Is this character one of the two path separators? -/
def isSep (c : Char) : Bool := c == '/' || c == '\\'

/-- nip.mjs getFileNameFromPath: character loop that resets the accumulated
name at every separator. -/
def getFileNameFromPath (p : List Char) : List Char :=
  p.foldl (fun acc c => if isSep c then [] else acc ++ [c]) []

/-- The backslash normalisation getFileName applies before its regular
expression. -/
def normalisePath (p : List Char) : List Char :=
  p.map (fun c => if c == '\\' then '/' else c)

/-- The match of the anchored lazy regular expression ([^/]*?)$ against a
string: its exec scans start positions left to right, and a start position
succeeds exactly when no '/' remains at or after it (the lazy group then
expands to the whole remaining suffix to reach the anchor), so the match is
the longest slash-free suffix. -/
def lastNoSlashSuffix : List Char → List Char
  | [] => []
  | c :: t => if '/' ∈ c :: t then lastNoSlashSuffix t else c :: t

/-- getFileName of the unnamed nip module: normalise backslashes, take the
regex match, return it when truthy (non-empty) and null otherwise. -/
def getFileName (p : List Char) : Option (List Char) :=
  let m := lastNoSlashSuffix (normalisePath p)
  if m.isEmpty then none else some m

/-- The specification's reading of both functions: the substring after the
last '/' or '\' separator (the whole path when no separator occurs),
written independently of either implementation. -/
def specLastSegment (p : List Char) : List Char :=
  (p.reverse.takeWhile (fun c => !isSep c)).reverse

/-- A hand-built 98-byte archive tail: a ZIP64 end-of-central-directory
record (numEntries 5, centralDirectorySize 300, centralDirectoryStart 400)
at offset 0, the ZIP64 locator pointing at it at offset 56, and a standard
end record — the shape the read-side claims quantify over. -/
def c1File : List Nat :=
  writeLE 4 Signatures.zip64EndOfCentralDirectory ++
  writeLE 8 44 ++ writeLE 2 45 ++ writeLE 2 45 ++ writeLE 4 0 ++ writeLE 4 0 ++
  writeLE 8 5 ++ writeLE 8 5 ++ writeLE 8 300 ++ writeLE 8 400 ++
  writeLE 4 Signatures.zip64EndOfCentralDirectoryLocator ++ writeLE 4 0 ++
  writeLE 8 0 ++ writeLE 4 1 ++
  writeLE 4 Signatures.endOfCentralDirectory ++ writeLE 2 0 ++ writeLE 2 0 ++
  writeLE 2 5 ++ writeLE 2 5 ++ writeLE 4 300 ++ writeLE 4 0 ++ writeLE 2 0

/-- An entry whose local-header offset is exactly 0xFFFFFFFF and whose sizes
are small: the boundary case for the sentinel/extra-field agreement claim. -/
def c3Info : FileInfo := createFileInfoObject [97] 0xffffffff

/-- The distinct-name view of a raw definition: one field per name, at its
first occurrence, in order — the fields a name-keyed entries object retains. -/
def distinctFieldsAux : StructDef → List String → StructDef
  | [], _ => []
  | f :: t, seen =>
    if f.name ∈ seen then distinctFieldsAux t seen
    else f :: distinctFieldsAux t (f.name :: seen)

/-- Sum of the widths of the distinct field names of a definition (each
repeated name counted once, the read-side consumption the implicit claim
describes). -/
def distinctByteSizeOf (df : StructDef) : Nat :=
  byteSizeOfDef (distinctFieldsAux df [])

theorem length_writeLE (w v : Nat) : (writeLE w v).length = w := by
  induction w generalizing v with
  | zero => rfl
  | succ n ih => simp [writeLE, ih]

theorem readLE_writeLE_append (w v : Nat) (rest : List Nat) (h : v < 256 ^ w) :
    readLE w (writeLE w v ++ rest) = v := by
  induction w generalizing v with
  | zero =>
    simp [writeLE, readLE]
    omega
  | succ n ih =>
    have hd : v / 256 < 256 ^ n := by
      rw [Nat.div_lt_iff_lt_mul (by norm_num : 0 < 256)]
      calc v < 256 ^ (n + 1) := h
        _ = 256 ^ n * 256 := by ring
    calc readLE (n + 1) (writeLE (n + 1) v ++ rest)
        = v % 256 + 256 * readLE n (writeLE n (v / 256) ++ rest) := by
          simp [writeLE, readLE]
      _ = v % 256 + 256 * (v / 256) := by rw [ih (v / 256) hd]
      _ = v := by omega

theorem drop_append_len {α : Type} (a b : List α) (n k : Nat) (h : a.length = n) :
    (a ++ b).drop (n + k) = b.drop k := by
  subst h
  induction a with
  | nil => simp
  | cons x t _ih => simp [List.drop, Nat.succ_add]

theorem drop_append_self {α : Type} (a b : List α) (n : Nat) (h : a.length = n) :
    (a ++ b).drop n = b := by
  have := drop_append_len a b n 0 h
  simpa using this

theorem payloadOf_length (es : List Entry) :
    (payloadOf es).length = structSizeOf es := by
  induction es with
  | nil => rfl
  | cons e t ih => simp [payloadOf, structSizeOf, length_writeLE] at ih ⊢; omega

theorem updateCRC_append (a b : List Nat) (c : Nat) :
    updateCRC (a ++ b) c = updateCRC b (updateCRC a c) := by
  simp [updateCRC, List.foldl_append]

theorem updateCRCFold_join (chunks : List (List Nat)) (c : Nat) :
    updateCRCFold chunks c = updateCRC chunks.flatten c := by
  induction chunks generalizing c with
  | nil => rfl
  | cons ch t ih =>
    have h1 : updateCRCFold (ch :: t) c = updateCRCFold t (updateCRC ch c) := rfl
    rw [h1, ih, List.flatten_cons, updateCRC_append]

/-- C7: starting from runningCrc = 0xFFFFFFFF, folding updateCRC over any
chunking of the nine ASCII bytes of "123456789" and XOR-inverting the result
with 0xFFFFFFFF yields exactly 0xCBF43926. -/
theorem c7_crc_test_vector (chunks : List (List Nat))
    (h : chunks.flatten = "123456789".toList.map Char.toNat) :
    updateCRCFold chunks 0xffffffff ^^^ 0xffffffff = 0xCBF43926 := by
  rw [updateCRCFold_join, h]
  decide

theorem c7_crc_test_vector_witness :
    ([[49, 50, 51], [52, 53, 54, 55, 56, 57]] : List (List Nat)).flatten =
      "123456789".toList.map Char.toNat ∧
    updateCRCFold [[49, 50, 51], [52, 53, 54, 55, 56, 57]] 0xffffffff ^^^ 0xffffffff =
      0xCBF43926 :=
  ⟨by decide, c7_crc_test_vector [[49, 50, 51], [52, 53, 54, 55, 56, 57]] (by decide)⟩

theorem mkStructAux_ok (d : Data) (df : StructDef) :
    ∀ acc : List Entry,
      ((acc.map Entry.name) ++ df.map FieldDef.name).Nodup →
      mkStructAux d df acc = .ok (acc ++ df.map (mkEntry d)) := by
  induction df with
  | nil =>
    intro acc _
    simp [mkStructAux]
  | cons f t ih =>
    intro acc h
    have hmem : f.name ∉ acc.map Entry.name := by
      intro hv
      exact (List.nodup_append.mp h).2.2 hv (by simp)
    rw [mkStructAux, if_neg hmem]
    have h2 : (((acc ++ [mkEntry d f]).map Entry.name) ++ t.map FieldDef.name).Nodup := by
      simp only [List.map_append, List.map_cons, List.map_nil, mkEntry] at h ⊢
      rw [List.append_cons] at h
      exact h
    rw [ih (acc ++ [mkEntry d f]) h2]
    simp

theorem mkStruct_ok_of_nodup (d : Data) (df : StructDef)
    (h : (df.map FieldDef.name).Nodup) :
    mkStruct df d = .ok ⟨df.map (mkEntry d)⟩ := by
  rw [mkStruct, mkStructAux_ok d df [] (by simpa using h)]
  simp [Except.map]

theorem mkStructAux_entries (d : Data) (df : StructDef) :
    ∀ acc es, mkStructAux d df acc = .ok es → es = acc ++ df.map (mkEntry d) := by
  induction df with
  | nil =>
    intro acc es h
    simp [mkStructAux] at h
    simp [h.symm]
  | cons f t ih =>
    intro acc es h
    rw [mkStructAux] at h
    by_cases hm : f.name ∈ acc.map Entry.name
    · rw [if_pos hm] at h
      exact absurd h (by simp)
    · rw [if_neg hm] at h
      have := ih _ _ h
      simp [this]

theorem mkStruct_ok_entries (d : Data) (df : StructDef) (s : StructM)
    (h : mkStruct df d = .ok s) : s.entries = df.map (mkEntry d) := by
  rw [mkStruct] at h
  cases haux : mkStructAux d df [] with
  | error e => rw [haux] at h; exact absurd h (by simp [Except.map])
  | ok es =>
    rw [haux] at h
    simp [Except.map] at h
    have := mkStructAux_entries d df [] es haux
    rw [← h, this]
    simp

theorem writeEntries_ok (es : List Entry)
    (h : ∀ e ∈ es, e.value < 256 ^ TypeSizes e.ty) :
    writeEntries es = .ok (payloadOf es) := by
  induction es with
  | nil => rfl
  | cons e t ih =>
    have he := h e (by simp)
    have ht := ih (fun x hx => h x (by simp [hx]))
    simp only [writeEntries, writeEntry, if_pos he, ht, payloadOf]
    rfl

theorem readEntries_payload :
    ∀ (es es' : List Entry) (pre post : List Nat),
      es'.map (fun e => (e.name, e.ty)) = es.map (fun e => (e.name, e.ty)) →
      (∀ e ∈ es, e.value < 256 ^ TypeSizes e.ty) →
      readEntries (pre ++ (payloadOf es ++ post)) pre.length es' = es := by
  intro es
  induction es with
  | nil =>
    intro es' pre post hsh _
    cases es' with
    | nil => rfl
    | cons a b => simp at hsh
  | cons e t ih =>
    intro es' pre post hsh hv
    cases es' with
    | nil => simp at hsh
    | cons e' t' =>
      simp only [List.map_cons, List.cons.injEq, Prod.mk.injEq] at hsh
      obtain ⟨⟨hn, hty⟩, hsh'⟩ := hsh
      have hv1 : e.value < 256 ^ TypeSizes e.ty := hv e (by simp)
      have hbuf : pre ++ (payloadOf (e :: t) ++ post) =
          pre ++ (writeLE (TypeSizes e.ty) e.value ++ (payloadOf t ++ post)) := by
        simp [payloadOf]
      rw [readEntries, hbuf]
      have hdrop : (pre ++ (writeLE (TypeSizes e.ty) e.value ++ (payloadOf t ++ post))).drop pre.length
          = writeLE (TypeSizes e.ty) e.value ++ (payloadOf t ++ post) :=
        drop_append_self _ _ _ rfl
      simp only [List.cons.injEq]
      constructor
      · rw [hdrop, hty, readLE_writeLE_append _ _ _ hv1, hn]
      · have hre : pre ++ (writeLE (TypeSizes e.ty) e.value ++ (payloadOf t ++ post)) =
            (pre ++ writeLE (TypeSizes e.ty) e.value) ++ (payloadOf t ++ post) := by
          simp
        have hlen : pre.length + TypeSizes e'.ty =
            (pre ++ writeLE (TypeSizes e.ty) e.value).length := by
          simp [length_writeLE, hty]
        rw [hre, hlen]
        exact ih t' (pre ++ writeLE (TypeSizes e.ty) e.value) post hsh'
          (fun x hx => hv x (by simp [hx]))

theorem find?_mkEntry (d : Data) (df : StructDef) (f : FieldDef)
    (hnd : (df.map FieldDef.name).Nodup) (hf : f ∈ df) :
    (df.map (mkEntry d)).find? (fun e => e.name == f.name) = some (mkEntry d f) := by
  induction df with
  | nil => simp at hf
  | cons g t ih =>
    rcases List.mem_cons.mp hf with hfg | hft
    · subst hfg
      simp [List.find?, mkEntry]
    · have hg : g.name ∉ t.map FieldDef.name := by
        simp only [List.map_cons, List.nodup_cons] at hnd
        exact hnd.1
      have hne : (g.name == f.name) = false := by
        rw [beq_eq_false_iff_ne]
        intro he
        exact hg (he ▸ List.mem_map_of_mem FieldDef.name hft)
      have hnd2 : (t.map FieldDef.name).Nodup := by
        simp only [List.map_cons, List.nodup_cons] at hnd
        exact hnd.2
      simp [List.find?, mkEntry, hne, ih hnd2 hft]

theorem structSizeOf_map_mkEntry (d : Data) (df : StructDef) :
    structSizeOf (df.map (mkEntry d)) = byteSizeOfDef df := by
  rw [structSizeOf, byteSizeOfDef, List.map_map]
  rfl

theorem except_bind_ok {α β : Type} (a : α) (f : α → Except JSError β) :
    (Except.ok a >>= f) = f a := rfl

theorem writeDefFields_ok (df : StructDef) (d : Data)
    (hp : ∀ f ∈ df, f.ty = .u64 → lookupData d f.name ≠ none ∨ f.literal ≠ none)
    (hr : ∀ f ∈ df, chooseValue d f < 256 ^ TypeSizes f.ty) :
    writeDefFields df d = .ok (payloadOf (df.map (mkEntry d))) := by
  induction df with
  | nil => rfl
  | cons f t ih =>
    have hpf := hp f (by simp)
    have hrf := hr f (by simp)
    have hfield : writeDefField d f = .ok (writeLE (TypeSizes f.ty) (chooseValue d f)) := by
      rw [writeDefField]
      cases hl : lookupData d f.name with
      | some v =>
        have : chooseValue d f = v := by simp [chooseValue, hl]
        rw [this] at hrf
        simp [if_pos hrf, this]
      | none =>
        cases hlit : f.literal with
        | none =>
          have hv : chooseValue d f = 0 := by simp [chooseValue, hl, hlit]
          rw [hv]
          cases hty : f.ty with
          | u64 =>
            rcases hpf hty with hc | hc
            · exact absurd hl hc
            · exact absurd hlit hc
          | u16 => rfl
          | u32 => rfl
        | some v =>
          have : chooseValue d f = v := by simp [chooseValue, hl, hlit]
          rw [this] at hrf
          simp [if_pos hrf, this]
    have ht := ih (fun x hx => hp x (by simp [hx])) (fun x hx => hr x (by simp [hx]))
    simp only [writeDefFields, hfield, ht, List.map_cons, payloadOf, mkEntry]
    rfl

/-- C2 counterexample: the round-trip claim fails as stated, on three
concrete inputs.  First, for the repository's own
zip64EndOfCentralDirectoryRecord definition (whose "numEntries" field is
listed twice) the encoder produces a 56-byte buffer but decoding it throws a
TypeError while the Struct constructor redefines the repeated property, so
no supplied field is reproduced.  Second, a supplied value that does not fit
its declared width makes the encoder itself throw a RangeError.  Third, an
8-byte field with neither a supplied datum nor a declared literal makes
createBufferForStruct hand undefined to writeBigUInt64LE, which throws a
TypeError because undefined is not a BigInt (a 2- or 4-byte field in the
same situation silently encodes as NaN-coerced zero bytes and round-trips
as the zero default, so it is no counterexample). -/
theorem c2_roundtrip_counterexample :
    ((createBufferForStruct zip64EndOfCentralDirectoryRecordDef
        [("sizeOfCentralDirectoryRecord", 44), ("numEntries", 5),
         ("centralDirectorySize", 300), ("centralDirectoryStart", 400)] 0 0).map
      (fun r => r.1.length) = .ok 56) ∧
    ((createBufferForStruct zip64EndOfCentralDirectoryRecordDef
        [("sizeOfCentralDirectoryRecord", 44), ("numEntries", 5),
         ("centralDirectorySize", 300), ("centralDirectoryStart", 400)] 0 0).bind
      (fun r => Struct.FromBuffer zip64EndOfCentralDirectoryRecordDef r.1 0)
      = .error .typeError) ∧
    createBufferForStruct [⟨"a", .u16, none⟩] [("a", 70000)] 0 0 = .error .rangeError ∧
    createBufferForStruct [⟨"a", .u64, none⟩] [] 0 0 = .error .invalidArg :=
  ⟨rfl, rfl, rfl, rfl⟩

/-- C2 amended: for every record definition with pairwise-distinct field
names and every data record whose chosen values fit their declared widths,
construction succeeds, encoding succeeds, and decoding the encoded buffer at
offset 0 reproduces the constructed struct exactly: every supplied field
comes back with its supplied value, and every omitted field with its
declared literal, or the zero default when it has no literal (this is
chooseValue).  The encoder createBufferForStruct produces the same bytes
whenever every 8-byte field has either a datum or a literal: a 2- or 4-byte
field with neither is written as NaN-coerced zero bytes, which coincides
with the Struct path's zero default, while an 8-byte field with neither
makes writeBigUInt64LE throw on the undefined value. -/
theorem c2_roundtrip_amended (df : StructDef) (d : Data)
    (hnd : (df.map FieldDef.name).Nodup)
    (hr : ∀ f ∈ df, chooseValue d f < 256 ^ TypeSizes f.ty) :
    mkStruct df d = .ok ⟨df.map (mkEntry d)⟩ ∧
    (StructM.mk (df.map (mkEntry d))).writeToBuffer = .ok (payloadOf (df.map (mkEntry d))) ∧
    Struct.FromBuffer df (payloadOf (df.map (mkEntry d))) 0 = .ok ⟨df.map (mkEntry d)⟩ ∧
    (∀ f ∈ df, (StructM.mk (df.map (mkEntry d))).valueOf f.name = some (chooseValue d f)) ∧
    ((∀ f ∈ df, f.ty = .u64 → lookupData d f.name ≠ none ∨ f.literal ≠ none) →
      (createBufferForStruct df d 0 0).map (·.1) = .ok (payloadOf (df.map (mkEntry d)))) := by
  have hrange : ∀ e ∈ df.map (mkEntry d), e.value < 256 ^ TypeSizes e.ty := by
    intro e he
    rcases List.mem_map.mp he with ⟨f, hf, rfl⟩
    exact hr f hf
  refine ⟨mkStruct_ok_of_nodup d df hnd, ?_, ?_, ?_, ?_⟩
  · exact writeEntries_ok _ hrange
  · have hsize : (StructM.mk (df.map (mkEntry []))).size = byteSizeOfDef df :=
      structSizeOf_map_mkEntry [] df
    have hlen : (payloadOf (df.map (mkEntry d))).length = byteSizeOfDef df := by
      rw [payloadOf_length, structSizeOf_map_mkEntry]
    have hread : readEntries (payloadOf (df.map (mkEntry d))) 0 (df.map (mkEntry [])) =
        df.map (mkEntry d) := by
      have hshape : (df.map (mkEntry [])).map (fun e => (e.name, e.ty)) =
          (df.map (mkEntry d)).map (fun e => (e.name, e.ty)) := by
        simp [List.map_map, Function.comp, mkEntry]
      have := readEntries_payload (df.map (mkEntry d)) (df.map (mkEntry [])) [] []
        hshape hrange
      simpa using this
    unfold Struct.FromBuffer
    rw [mkStruct_ok_of_nodup [] df hnd, except_bind_ok]
    rw [StructM.readFromBuffer, hsize, hlen]
    rw [if_pos (by omega : (0 : Nat) + byteSizeOfDef df ≤ byteSizeOfDef df)]
    rw [except_bind_ok, hread]
  · intro f hf
    rw [StructM.valueOf]
    simp [find?_mkEntry d df f hnd hf, mkEntry]
  · intro hp
    rw [createBufferForStruct, writeDefFields_ok df d hp hr, except_bind_ok]
    simp [Except.map]

theorem c2_roundtrip_amended_witness :
    ((([⟨"a", Ty.u16, some 7⟩, ⟨"b", Ty.u32, none⟩, ⟨"c", Ty.u64, some 9⟩] :
        StructDef).map FieldDef.name).Nodup) ∧
    (∀ f ∈ ([⟨"a", Ty.u16, some 7⟩, ⟨"b", Ty.u32, none⟩, ⟨"c", Ty.u64, some 9⟩] :
        StructDef), chooseValue [("b", 5)] f < 256 ^ TypeSizes f.ty) ∧
    Struct.FromBuffer [⟨"a", Ty.u16, some 7⟩, ⟨"b", Ty.u32, none⟩, ⟨"c", Ty.u64, some 9⟩]
      (payloadOf (([⟨"a", Ty.u16, some 7⟩, ⟨"b", Ty.u32, none⟩, ⟨"c", Ty.u64, some 9⟩] :
        StructDef).map (mkEntry [("b", 5)]))) 0 =
      .ok ⟨([⟨"a", Ty.u16, some 7⟩, ⟨"b", Ty.u32, none⟩, ⟨"c", Ty.u64, some 9⟩] :
        StructDef).map (mkEntry [("b", 5)])⟩ :=
  ⟨by decide, by decide,
    (c2_roundtrip_amended
      [⟨"a", Ty.u16, some 7⟩, ⟨"b", Ty.u32, none⟩, ⟨"c", Ty.u64, some 9⟩]
      [("b", 5)] (by decide) (by decide)).2.2.1⟩

theorem findIdx?_eq_none_of_not_mem {n : String} (l : List String) (h : n ∉ l) :
    l.findIdx? (fun m => m == n) = none := by
  induction l with
  | nil => rfl
  | cons a t ih =>
    have hne : (a == n) = false := by
      rw [beq_eq_false_iff_ne]
      intro he
      exact h (he ▸ List.mem_cons_self a t)
    have ht : n ∉ t := fun hm => h (List.mem_cons_of_mem a hm)
    simp [List.findIdx?_cons, hne, ih ht]

/-- C8: for every record definition from which a Struct can be constructed
and every field name not declared in it, both partial-buffer-math operations
(sizeFrom and sizeUntil, the source forms of remainingSizeFrom and
offsetOfField) signal the unknown field by returning null — modelled as
none, the FieldNotFound failure of the specification. -/
theorem c8_unknown_field_returns_none (df : StructDef) (d : Data) (s : StructM)
    (hok : mkStruct df d = .ok s) (n : String) (hn : n ∉ df.map FieldDef.name)
    (inclusive : Bool) :
    s.sizeFrom n inclusive = none ∧ s.sizeUntil n inclusive = none := by
  have hent := mkStruct_ok_entries d df s hok
  have horder : s.entryOrder = df.map FieldDef.name := by
    rw [StructM.entryOrder, hent, List.map_map]
    rfl
  have hidx : s.entryOrder.findIdx? (fun m => m == n) = none := by
    rw [horder]
    exact findIdx?_eq_none_of_not_mem _ hn
  constructor
  · rw [StructM.sizeFrom, hidx]
  · rw [StructM.sizeUntil, hidx]

theorem c8_unknown_field_returns_none_witness :
    mkStruct zip64EndOfCentralDirectoryLocatorDef [] =
      .ok ⟨zip64EndOfCentralDirectoryLocatorDef.map (mkEntry [])⟩ ∧
    ("zipFileComment" ∉ zip64EndOfCentralDirectoryLocatorDef.map FieldDef.name) ∧
    ((StructM.mk (zip64EndOfCentralDirectoryLocatorDef.map (mkEntry []))).sizeFrom
        "zipFileComment" false = none ∧
     (StructM.mk (zip64EndOfCentralDirectoryLocatorDef.map (mkEntry []))).sizeUntil
        "zipFileComment" false = none) :=
  ⟨rfl, by decide,
    c8_unknown_field_returns_none zip64EndOfCentralDirectoryLocatorDef []
      ⟨zip64EndOfCentralDirectoryLocatorDef.map (mkEntry [])⟩ rfl
      "zipFileComment" (by decide) false⟩

theorem mkStructAux_names_nodup (d : Data) :
    ∀ (df : StructDef) (acc : List Entry) es,
      (acc.map Entry.name).Nodup → mkStructAux d df acc = .ok es →
      ((acc.map Entry.name) ++ df.map FieldDef.name).Nodup := by
  intro df
  induction df with
  | nil =>
    intro acc es hacc _
    simpa using hacc
  | cons f t ih =>
    intro acc es hacc h
    rw [mkStructAux] at h
    by_cases hm : f.name ∈ acc.map Entry.name
    · rw [if_pos hm] at h
      exact absurd h (by simp)
    · rw [if_neg hm] at h
      have hacc2 : ((acc ++ [mkEntry d f]).map Entry.name).Nodup := by
        simp only [List.map_append, List.map_cons, List.map_nil, mkEntry]
        rw [List.nodup_append]
        refine ⟨hacc, List.nodup_singleton _, ?_⟩
        intro a ha hb
        simp at hb
        exact hm (hb ▸ ha)
      have := ih (acc ++ [mkEntry d f]) es hacc2 h
      simp only [List.map_append, List.map_cons, List.map_nil, mkEntry] at this
      simp only [List.map_cons]
      rw [List.append_cons]
      simpa using this

theorem mkStruct_ok_nodup (d : Data) (df : StructDef) (s : StructM)
    (h : mkStruct df d = .ok s) : (df.map FieldDef.name).Nodup := by
  rw [mkStruct] at h
  cases haux : mkStructAux d df [] with
  | error e =>
    rw [haux] at h
    exact absurd h (by simp [Except.map])
  | ok es =>
    have := mkStructAux_names_nodup d df [] es (by simp) haux
    simpa using this

theorem distinctFieldsAux_of_nodup :
    ∀ (df : StructDef) (seen : List String),
      (df.map FieldDef.name).Nodup → (∀ f ∈ df, f.name ∉ seen) →
      distinctFieldsAux df seen = df := by
  intro df
  induction df with
  | nil => intro seen _ _; rfl
  | cons f t ih =>
    intro seen hnd hseen
    have hf : f.name ∉ seen := hseen f (by simp)
    rw [distinctFieldsAux, if_neg hf]
    have hnd2 : (t.map FieldDef.name).Nodup := by
      simp only [List.map_cons, List.nodup_cons] at hnd
      exact hnd.2
    have hhead : f.name ∉ t.map FieldDef.name := by
      simp only [List.map_cons, List.nodup_cons] at hnd
      exact hnd.1
    have hseen2 : ∀ g ∈ t, g.name ∉ f.name :: seen := by
      intro g hg hmem
      rcases List.mem_cons.mp hmem with he | hs
      · exact hhead (he ▸ List.mem_map_of_mem FieldDef.name hg)
      · exact hseen g (List.mem_cons_of_mem f hg) hs
    rw [ih (f.name :: seen) hnd2 hseen2]

/-- C9 counterexample: the claim as stated asserts that decoding the
zip64EndOfCentralDirectoryRecord definition consumes 48 bytes; in fact the
Struct for that definition cannot be constructed at all — the repeated
"numEntries" makes the constructor throw a TypeError while redefining the
non-configurable synthesized property — so reading from a 56-byte buffer
errors instead of consuming 48 bytes. -/
theorem c9_decode_counterexample :
    mkStruct zip64EndOfCentralDirectoryRecordDef [] = .error .typeError ∧
    ((mkStruct zip64EndOfCentralDirectoryRecordDef []).bind
      (fun s => s.readFromBuffer (List.replicate 56 0) 0)).map (·.2) =
      .error .typeError :=
  ⟨rfl, rfl⟩

/-- C9 amended: for every definition from which a Struct constructs (which
forces pairwise-distinct field names), readFromBuffer consumes exactly the
sum of the widths of the distinct field names, Struct.size equals that same
sum, and — names being distinct — that sum also equals the raw wire size of
prepareStructs.  For the zip64EndOfCentralDirectoryRecord definition, which
lists numEntries twice, the distinct-name sum is 48 while the encoded wire
record is 56 bytes; but no shifted-offset decode occurs, because the Struct
constructor throws on the repeated name before any read. -/
theorem c9_struct_size_amended (df : StructDef) (d : Data) (s : StructM)
    (hok : mkStruct df d = .ok s) (buf : List Nat) (off : Nat)
    (hlen : off + byteSizeOfDef df ≤ buf.length) :
    (s.readFromBuffer buf off).map (·.2) = .ok (distinctByteSizeOf df) ∧
    s.size = distinctByteSizeOf df ∧
    distinctByteSizeOf df = byteSizeOfDef df ∧
    distinctByteSizeOf zip64EndOfCentralDirectoryRecordDef = 48 ∧
    byteSizeOfDef zip64EndOfCentralDirectoryRecordDef = 56 ∧
    mkStruct zip64EndOfCentralDirectoryRecordDef [] = .error .typeError := by
  have hnd := mkStruct_ok_nodup d df s hok
  have hdistinct : distinctByteSizeOf df = byteSizeOfDef df := by
    rw [distinctByteSizeOf, distinctFieldsAux_of_nodup df [] hnd (by simp)]
  have hsize : s.size = byteSizeOfDef df := by
    rw [StructM.size, mkStruct_ok_entries d df s hok, structSizeOf_map_mkEntry]
  refine ⟨?_, hdistinct ▸ hsize, hdistinct, by decide, by decide, rfl⟩
  rw [StructM.readFromBuffer, hsize, if_pos hlen]
  rw [Except.map, hdistinct]

theorem c9_struct_size_amended_witness :
    mkStruct zip64DataDescriptorDef [] =
      .ok ⟨zip64DataDescriptorDef.map (mkEntry [])⟩ ∧
    (0 + byteSizeOfDef zip64DataDescriptorDef ≤ (List.replicate 24 0).length) ∧
    ((StructM.mk (zip64DataDescriptorDef.map (mkEntry []))).readFromBuffer
        (List.replicate 24 0) 0).map (·.2) = .ok (distinctByteSizeOf zip64DataDescriptorDef) :=
  ⟨rfl, by decide,
    (c9_struct_size_amended zip64DataDescriptorDef []
      ⟨zip64DataDescriptorDef.map (mkEntry [])⟩ rfl
      (List.replicate 24 0) 0 (by decide)).1⟩

/-- No occurrence of the signature at any position of the list. -/
theorem startsWith_append_zeros (pat : List Nat) (hz : ∀ b ∈ pat, b ≠ 0) :
    ∀ (a : List Nat) (k : Nat),
      listStartsWith pat (a ++ List.replicate k 0) = true →
      listStartsWith pat a = true := by
  induction pat with
  | nil => intro a k _; rfl
  | cons p ps ih =>
    intro a k h
    cases a with
    | nil =>
      exfalso
      cases k with
      | zero => simp [listStartsWith] at h
      | succ m =>
        rw [List.nil_append, List.replicate_succ, listStartsWith] at h
        have hp : p = 0 := by
          have := (Bool.and_eq_true _ _).mp h
          simpa using this.1
        exact hz p (by simp) hp
    | cons b bs =>
      rw [List.cons_append, listStartsWith] at h
      rw [listStartsWith]
      have hparts := (Bool.and_eq_true _ _).mp h
      rw [Bool.and_eq_true]
      exact ⟨hparts.1, ih (fun b hb => hz b (List.mem_cons_of_mem p hb)) bs k hparts.2⟩

theorem startsWith_take (pat : List Nat) :
    ∀ (l : List Nat) (k : Nat),
      listStartsWith pat (l.take k) = true → listStartsWith pat l = true := by
  induction pat with
  | nil => intro l k _; rfl
  | cons p ps ih =>
    intro l k h
    cases l with
    | nil => simpa [List.take_nil] using h
    | cons b bs =>
      cases k with
      | zero => simp [listStartsWith] at h
      | succ m =>
        rw [List.take_succ_cons, listStartsWith] at h
        rw [listStartsWith]
        have hparts := (Bool.and_eq_true _ _).mp h
        rw [Bool.and_eq_true]
        exact ⟨hparts.1, ih bs m hparts.2⟩

theorem bufIndexOfAux_none_of_no_occurrence (pat : List Nat) :
    ∀ (l : List Nat) (j : Nat),
      (∀ i : Nat, listStartsWith pat (l.drop i) = false) →
      bufIndexOfAux pat l j = none := by
  intro l
  induction l with
  | nil => intro j _; rfl
  | cons b t ih =>
    intro j h
    rw [bufIndexOfAux]
    have h0 : listStartsWith pat (b :: t) = false := by simpa using h 0
    rw [h0]
    simp only [Bool.false_eq_true, if_false]
    exact ih (j + 1) (fun i => by simpa [List.drop_succ_cons] using h (i + 1))

theorem no_occurrence_of_bufIndexOf_none (pat : List Nat) (hne : pat ≠ []) :
    ∀ (l : List Nat), bufIndexOf l pat = none →
      ∀ i : Nat, listStartsWith pat (l.drop i) = false := by
  intro l
  suffices haux : ∀ (l : List Nat) (j : Nat), bufIndexOfAux pat l j = none →
      ∀ i : Nat, listStartsWith pat (l.drop i) = false by
    intro h i
    exact haux l 0 h i
  intro l
  induction l with
  | nil =>
    intro j _ i
    rw [List.drop_nil]
    cases pat with
    | nil => exact absurd rfl hne
    | cons p ps => rfl
  | cons b t ih =>
    intro j h i
    rw [bufIndexOfAux] at h
    by_cases hs : listStartsWith pat (b :: t) = true
    · rw [if_pos hs] at h
      exact absurd h (by simp)
    · rw [if_neg hs] at h
      cases i with
      | zero => simpa using Bool.eq_false_iff.mpr hs
      | succ m =>
        rw [List.drop_succ_cons]
        exact ih (j + 1) h m

theorem noSig_slice (x : List Nat) (pat : List Nat)
    (h : ∀ i : Nat, listStartsWith pat (x.drop i) = false) (p m : Nat) :
    ∀ i : Nat, listStartsWith pat (((x.drop p).take m).drop i) = false := by
  intro i
  rw [Bool.eq_false_iff]
  intro hocc
  have h1 : listStartsWith pat ((x.drop p).drop i) = true := by
    rw [List.drop_take] at hocc
    exact startsWith_take pat _ _ hocc
  rw [List.drop_drop] at h1
  exact absurd h1 (by rw [h (p + i)]; simp)

theorem noSig_append_zeros (x : List Nat) (pat : List Nat) (hz : ∀ b ∈ pat, b ≠ 0)
    (h : ∀ i : Nat, listStartsWith pat (x.drop i) = false) (k : Nat) :
    ∀ i : Nat, listStartsWith pat ((x ++ List.replicate k 0).drop i) = false := by
  intro i
  rw [Bool.eq_false_iff]
  intro hocc
  rw [List.drop_append_eq_append_drop, List.drop_replicate] at hocc
  have := startsWith_append_zeros pat hz (x.drop i) _ hocc
  exact absurd this (by rw [h i]; simp)

theorem sigBytes_nonzero : ∀ b ∈ sigBytes, b ≠ 0 := by decide

theorem sigBytes_ne_nil : sigBytes ≠ [] := by decide

theorem bufIndexOf_none_of_no_occurrence (pat l : List Nat)
    (h : ∀ i : Nat, listStartsWith pat (l.drop i) = false) :
    bufIndexOf l pat = none :=
  bufIndexOfAux_none_of_no_occurrence pat l 0 h

theorem findLoop_none (file : List Nat)
    (hno : ∀ i : Nat, listStartsWith sigBytes (file.drop i) = false) :
    ∀ (fuel : Nat) (negOff : Nat) (buffer : List Nat), buffer.length = searchSize →
      (file.length < searchSize →
        buffer.drop file.length = List.replicate (searchSize - file.length) 0) →
      findLoop file fuel negOff buffer = none := by
  intro fuel
  induction fuel with
  | zero => intro negOff buffer _ _; rfl
  | succ n ih =>
    intro negOff buffer hlen hzero
    rw [findLoop]
    by_cases hlt : file.length < searchSize
    · have hpos : file.length - searchSize - negOff = 0 := by omega
      rw [hpos]
      have hbytes : searchSize ⊓ (file.length - 0) = file.length := by omega
      rw [hbytes, sliceRead, List.drop_zero, List.take_length, hzero hlt]
      have hnone := bufIndexOf_none_of_no_occurrence sigBytes _
        (noSig_append_zeros file sigBytes sigBytes_nonzero hno (searchSize - file.length))
      rw [hnone]
      exact ih _ _
        (by simp only [List.length_append, List.length_replicate]; omega)
        (fun _ => drop_append_self file _ file.length rfl)
    · push_neg at hlt
      have hbytes : searchSize ⊓ (file.length - (file.length - searchSize - negOff)) =
          searchSize := by omega
      rw [hbytes]
      have hdrop : buffer.drop searchSize = [] := by
        rw [← hlen]
        exact List.drop_length buffer
      rw [hdrop, List.append_nil, sliceRead]
      have hnone := bufIndexOf_none_of_no_occurrence sigBytes _
        (noSig_slice file sigBytes hno (file.length - searchSize - negOff) searchSize)
      rw [hnone]
      exact ih _ _
        (by rw [List.length_take, List.length_drop]; omega)
        (fun h2 => absurd h2 (by omega))

/-- C6: refuted by the code.  For every input file containing no occurrence
of the 4-byte little-endian ZIP64-locator signature, the backward scan of
findZip64Locator never leaves its while loop: for every fuel bound the
fuel-indexed loop is still running (the read position clamps at 0 and the
same signature-free window is re-read forever), and the source defines no
LocatorNotFound error anywhere. -/
theorem c6_locator_scan_never_terminates (file : List Nat) (fuel : Nat)
    (h : bufIndexOf file sigBytes = none) :
    findLoop file fuel 0 (List.replicate searchSize 0) = none := by
  apply findLoop_none file
    (no_occurrence_of_bufIndexOf_none sigBytes sigBytes_ne_nil file h)
  · simp
  · intro _
    rw [List.drop_replicate]

theorem c6_locator_scan_never_terminates_witness :
    bufIndexOf (List.replicate 100 0) sigBytes = none ∧
    findLoop (List.replicate 100 0) 3 0 (List.replicate searchSize 0) = none :=
  ⟨by decide, c6_locator_scan_never_terminates (List.replicate 100 0) 3 (by decide)⟩

theorem findLoop_succ (file : List Nat) (n negOff : Nat) (buffer : List Nat) :
    findLoop file (n + 1) negOff buffer =
      match bufIndexOf (sliceRead file (file.length - searchSize - negOff)
          (min searchSize (file.length - (file.length - searchSize - negOff))) ++
          buffer.drop (min searchSize (file.length - (file.length - searchSize - negOff))))
          sigBytes with
      | some idx => some ⟨file.length - searchSize - negOff, idx,
          sliceRead file (file.length - searchSize - negOff)
            (min searchSize (file.length - (file.length - searchSize - negOff))) ++
            buffer.drop (min searchSize (file.length - (file.length - searchSize - negOff))),
          min searchSize (file.length - (file.length - searchSize - negOff))⟩
      | none => findLoop file n (negOff + (searchSize - 4))
          (sliceRead file (file.length - searchSize - negOff)
            (min searchSize (file.length - (file.length - searchSize - negOff))) ++
            buffer.drop (min searchSize (file.length - (file.length - searchSize - negOff)))) :=
  rfl

/-- C1: refuted by the code (the claim states the intended behaviour).  On
the hand-built 98-byte archive c1File — whose ZIP64 end record encodes
centralDirectorySize 300 and centralDirectoryStart 400, with a well-formed
locator pointing at it inside the last 2048 bytes — the scan does find the
locator and decodes relativeOffset 0 correctly, but the composed read side
then throws a TypeError instead of returning (400, 300): constructing the
Struct for the ZIP64 end-of-central-directory definition redefines the
repeated non-configurable "numEntries" property.  (Even without that throw,
the decode would read centralDirectorySize/Start from offsets 8 lower than
the ones encoding wrote them, and for files larger than 2048 bytes the
locator math compares an absolute file offset against a within-window byte
count, so the parse branch is never reached.) -/
theorem c1_readzip_fails_on_handbuilt_archive :
    readLE 8 (c1File.drop 40) = 300 ∧
    readLE 8 (c1File.drop 48) = 400 ∧
    findZip64Locator c1File 1 = some (.ok (some ⟨[⟨"signature", .u32, 0x07064b50⟩,
      ⟨"numDisksBeforeStart", .u32, 0⟩, ⟨"relativeOffset", .u64, 0⟩,
      ⟨"totalNumberOfDisks", .u32, 1⟩]⟩)) ∧
    readZip c1File 1 = some (.error .typeError) := by
  have h1 : c1File.length = 98 := rfl
  have hbuf : sliceRead c1File (c1File.length - searchSize - 0)
      (min searchSize (c1File.length - (c1File.length - searchSize - 0))) ++
      (List.replicate searchSize 0).drop
        (min searchSize (c1File.length - (c1File.length - searchSize - 0))) =
      c1File ++ List.replicate 1950 0 := by
    rw [h1]
    rw [show (98 : Nat) - searchSize - 0 = 0 from rfl]
    rw [show min searchSize (98 - 0) = 98 from rfl]
    rw [sliceRead, List.drop_zero]
    rw [show List.take 98 c1File = c1File from by rw [← h1]; exact List.take_length c1File]
    rw [List.drop_replicate]
    rfl
  have hloop : findLoop c1File 1 0 (List.replicate searchSize 0) =
      some ⟨0, 56, c1File ++ List.replicate 1950 0, 98⟩ := by
    rw [show (1 : Nat) = 0 + 1 from rfl, findLoop_succ, hbuf]
    rw [show bufIndexOf (c1File ++ List.replicate 1950 0) sigBytes = some 56 from rfl]
    rw [h1]
    rw [show (98 : Nat) - searchSize - 0 = 0 from rfl]
    rw [show min searchSize (98 - 0) = 98 from rfl]
  have hlen2 : (c1File ++ List.replicate 1950 0).length = 2048 := by
    rw [List.length_append, List.length_replicate, h1]
  have hparse : Struct.FromBuffer zip64EndOfCentralDirectoryLocatorDef
      (c1File ++ List.replicate 1950 0) 56 =
      .ok ⟨[⟨"signature", .u32, 0x07064b50⟩, ⟨"numDisksBeforeStart", .u32, 0⟩,
        ⟨"relativeOffset", .u64, 0⟩, ⟨"totalNumberOfDisks", .u32, 1⟩]⟩ := by
    unfold Struct.FromBuffer
    rw [show mkStruct zip64EndOfCentralDirectoryLocatorDef [] =
      .ok ⟨zip64EndOfCentralDirectoryLocatorDef.map (mkEntry [])⟩ from rfl]
    rw [except_bind_ok, StructM.readFromBuffer, hlen2]
    rw [if_pos (by decide : 56 + (StructM.mk (zip64EndOfCentralDirectoryLocatorDef.map
      (mkEntry []))).size ≤ 2048)]
    rw [except_bind_ok]
    rfl
  have hfind : findZip64Locator c1File 1 = some (.ok (some ⟨[⟨"signature", .u32, 0x07064b50⟩,
      ⟨"numDisksBeforeStart", .u32, 0⟩, ⟨"relativeOffset", .u64, 0⟩,
      ⟨"totalNumberOfDisks", .u32, 1⟩]⟩)) := by
    rw [findZip64Locator, hloop]
    show (if ((98 : Nat) : Int) - (((0 : Nat) + (56 : Nat) : Nat) : Int) < 20
      then some (Except.ok none)
      else some (Except.map some (Struct.FromBuffer zip64EndOfCentralDirectoryLocatorDef
        (c1File ++ List.replicate 1950 0) (0 + 56)))) = _
    rw [if_neg (by decide)]
    rw [show ((0 : Nat) + 56) = 56 from rfl, hparse]
    rfl
  refine ⟨rfl, rfl, hfind, ?_⟩
  rw [readZip, hfind]
  rfl

/-- C5: refuted by the code (the claim states the intended invariant).
Tracing one archive (startZip; addFileToZip of a one-byte name, empty input
and a single 1-byte compressed chunk; endZip with all three write calls
returning true): the counter equals the bytes handed to the sink after the
local header (31), after the compressed chunk (32), after the data
descriptor (56) and after the central-directory header (103); but the next
write hands the 56-byte ZIP64 end-of-central-directory record to the sink
while the counter advances only by the boolean return of write() coerced to
1, leaving counter 104 against 159 sink bytes, and endZip finishes with
counter 106 against 201 sink bytes. -/
theorem c5_offset_counter_eval :
    posLen (.ok startZip) = some (0, 0) ∧
    posLen (.ok (addFileHeaderStage startZip [97]).1) = some (31, 31) ∧
    posLen (.ok (addFileStreamStage (addFileHeaderStage startZip [97]).1 [[3]])) =
      some (32, 32) ∧
    posLen (addFileToZip startZip [97] [] [[3]]) = some (56, 56) ∧
    posLen ((addFileToZip startZip [97] [] [[3]]).map endZipCentralStage) =
      some (103, 103) ∧
    posLen (do
      let s1 ← addFileToZip startZip [97] [] [[3]]
      let zr ← createZIP64EndOfCentralDirectoryRecord 56 47 1
      Except.ok (writeChunkBool (endZipCentralStage s1) zr true)) = some (104, 159) ∧
    posLen (do
      let s1 ← addFileToZip startZip [97] [] [[3]]
      endZip s1 true true true) = some (106, 201) :=
  ⟨rfl, rfl, rfl, rfl, rfl, rfl, rfl⟩

theorem gfnfp_concat (xs : List Char) (c : Char) :
    getFileNameFromPath (xs ++ [c]) =
      if isSep c then [] else getFileNameFromPath xs ++ [c] := by
  simp [getFileNameFromPath, List.foldl_append]

theorem spec_concat (xs : List Char) (c : Char) :
    specLastSegment (xs ++ [c]) =
      if isSep c then [] else specLastSegment xs ++ [c] := by
  by_cases h : isSep c
  · simp [specLastSegment, List.takeWhile, h]
  · simp [specLastSegment, List.takeWhile, h]

theorem gfnfp_eq_spec (p : List Char) : getFileNameFromPath p = specLastSegment p := by
  induction p using List.reverseRecOn with
  | nil => rfl
  | append_singleton xs c ih => rw [gfnfp_concat, spec_concat, ih]

theorem lns_concat (q : List Char) (c : Char) :
    lastNoSlashSuffix (q ++ [c]) =
      if c == '/' then [] else lastNoSlashSuffix q ++ [c] := by
  induction q with
  | nil =>
    rcases eq_or_ne c '/' with rfl | hne
    · rfl
    · have hbeq : (c == '/') = false := beq_eq_false_iff_ne.mpr hne
      have hstep : lastNoSlashSuffix [c] =
          if '/' ∈ [c] then lastNoSlashSuffix [] else [c] := rfl
      rw [List.nil_append, hstep, hbeq,
        if_neg (by simp only [List.mem_singleton]; exact fun hx => hne hx.symm)]
      simp
      rfl
  | cons a t ih =>
    have hstep : lastNoSlashSuffix (a :: (t ++ [c])) =
        if '/' ∈ a :: (t ++ [c]) then lastNoSlashSuffix (t ++ [c])
        else a :: (t ++ [c]) := rfl
    have hstep2 : lastNoSlashSuffix (a :: t) =
        if '/' ∈ a :: t then lastNoSlashSuffix t else a :: t := rfl
    rcases eq_or_ne c '/' with rfl | hne
    · have hm : '/' ∈ a :: (t ++ ['/']) := by simp
      rw [List.cons_append, hstep, if_pos hm, ih]
      simp
    · have hbeq : (c == '/') = false := beq_eq_false_iff_ne.mpr hne
      by_cases hm : '/' ∈ a :: t
      · have hm2 : '/' ∈ a :: (t ++ [c]) := by
          rcases List.mem_cons.mp hm with h1 | h1
          · exact List.mem_cons.mpr (Or.inl h1)
          · exact List.mem_cons.mpr (Or.inr (List.mem_append_left [c] h1))
        rw [List.cons_append, hstep, hstep2, if_pos hm2, if_pos hm, ih, hbeq]
      · have hm2 : '/' ∉ a :: (t ++ [c]) := by
          intro hx
          rcases List.mem_cons.mp hx with h1 | h1
          · exact hm (List.mem_cons.mpr (Or.inl h1))
          · rcases List.mem_append.mp h1 with h2 | h2
            · exact hm (List.mem_cons.mpr (Or.inr h2))
            · rw [List.mem_singleton] at h2
              exact hne h2.symm
        rw [List.cons_append, hstep, hstep2, if_neg hm2, if_neg hm, hbeq]
        simp

theorem norm_eq_slash_iff (c : Char) :
    ((if c == '\\' then '/' else c) == '/') = isSep c := by
  by_cases h1 : c == '\\'
  · simp [isSep, h1]
  · simp only [if_neg h1, isSep]
    by_cases h2 : c == '/'
    · simp [h1, h2]
    · simp [h1, h2]

theorem lns_normalise_eq_spec (p : List Char) :
    lastNoSlashSuffix (normalisePath p) = specLastSegment p := by
  induction p using List.reverseRecOn with
  | nil => rfl
  | append_singleton xs c ih =>
    have hnorm : normalisePath (xs ++ [c]) =
        normalisePath xs ++ [if c == '\\' then '/' else c] := by
      simp [normalisePath]
    rw [hnorm, lns_concat, spec_concat, norm_eq_slash_iff, ih]
    by_cases h : isSep c
    · simp [h]
    · have hsep : isSep c = false := by
        revert h
        cases isSep c
        · intro _; rfl
        · intro hcon; exact absurd rfl hcon
      have hparts : (c == '/') = false ∧ (c == '\\') = false := by
        rw [isSep, Bool.or_eq_false_iff] at hsep
        exact hsep
      have hc : (if c == '\\' then '/' else c) = c := by
        rw [hparts.2]
        simp
      rw [hc]

theorem spec_of_noSep (p : List Char) (h : ∀ c ∈ p, isSep c = false) :
    specLastSegment p = p := by
  rw [specLastSegment]
  have hself : p.reverse.takeWhile (fun c => !isSep c) = p.reverse := by
    apply List.takeWhile_eq_self_iff.mpr
    intro c hc
    simp [h c (List.mem_reverse.mp hc)]
  rw [hself, List.reverse_reverse]

/-- C10: confirmed.  For every path whose final segment is non-empty, the
character-loop getFileNameFromPath and the regex-based getFileName agree:
both return the substring after the last '/' or '\\' separator
(specLastSegment), which is the whole path when no separator occurs; for a
path ending in a separator they differ — the loop returns the empty string
while the regex path returns null — so the non-empty-final-segment
precondition is needed for agreement. -/
theorem c10_filename_equivalence (p : List Char) (h : specLastSegment p ≠ []) :
    getFileNameFromPath p = specLastSegment p ∧
    getFileName p = some (specLastSegment p) ∧
    ((∀ c ∈ p, isSep c = false) → specLastSegment p = p) ∧
    getFileNameFromPath ['a', '/'] = [] ∧
    getFileName ['a', '/'] = none := by
  refine ⟨gfnfp_eq_spec p, ?_, spec_of_noSep p, rfl, rfl⟩
  rw [getFileName]
  simp only [lns_normalise_eq_spec]
  rw [if_neg (by simpa [List.isEmpty_iff] using h)]

theorem c10_filename_equivalence_witness :
    specLastSegment "C:\\some\\test\\path\\afile.txt".toList ≠ [] ∧
    specLastSegment "C:\\some\\test\\path\\afile.txt".toList = "afile.txt".toList ∧
    (getFileNameFromPath "C:\\some\\test\\path\\afile.txt".toList =
        specLastSegment "C:\\some\\test\\path\\afile.txt".toList ∧
      getFileName "C:\\some\\test\\path\\afile.txt".toList =
        some (specLastSegment "C:\\some\\test\\path\\afile.txt".toList) ∧
      ((∀ c ∈ "C:\\some\\test\\path\\afile.txt".toList, isSep c = false) →
        specLastSegment "C:\\some\\test\\path\\afile.txt".toList =
          "C:\\some\\test\\path\\afile.txt".toList) ∧
      getFileNameFromPath ['a', '/'] = [] ∧
      getFileName ['a', '/'] = none) :=
  ⟨by decide, by decide,
    c10_filename_equivalence "C:\\some\\test\\path\\afile.txt".toList (by decide)⟩

theorem readLE_payload_pre (pre : List Entry) (e : Entry) (post : List Entry)
    (tail : List Nat) (hv : e.value < 256 ^ TypeSizes e.ty) :
    readLE (TypeSizes e.ty)
      ((payloadOf (pre ++ e :: post) ++ tail).drop (structSizeOf pre)) = e.value := by
  induction pre with
  | nil =>
    rw [show structSizeOf [] = 0 from rfl, List.drop_zero, List.nil_append, payloadOf,
      List.append_assoc]
    exact readLE_writeLE_append _ _ _ hv
  | cons p ps ih =>
    rw [List.cons_append, payloadOf, List.append_assoc]
    rw [show structSizeOf (p :: ps) = TypeSizes p.ty + structSizeOf ps from by
      simp [structSizeOf]]
    rw [drop_append_len (writeLE (TypeSizes p.ty) p.value) _ (TypeSizes p.ty)
      (structSizeOf ps) (length_writeLE _ _)]
    exact ih

set_option maxHeartbeats 1600000

theorem cd_slot20 (fi : FileInfo) (xlen : Nat) (tail : List Nat)
    (h : fi.compressedSize < 2 ^ 32) :
    readLE 4 ((payloadOf (cdHeaderEntries fi xlen) ++ tail).drop 20) =
      fi.compressedSize :=
  readLE_payload_pre
    [⟨"signature", .u32, Signatures.centralDirectoryHeader⟩,
     ⟨"versionMadeby", .u16, fi.versionMadeby⟩,
     ⟨"versionNeededToExtract", .u16, fi.versionNeededToExtract⟩,
     ⟨"generalPurposeBitFlag", .u16, fi.generalPurposeBitFlag⟩,
     ⟨"compressionMethod", .u16, fi.compressionMethod⟩,
     ⟨"lastModFileTime", .u16, fi.lastModFileTime⟩,
     ⟨"lastModFileDate", .u16, fi.lastModFileDate⟩,
     ⟨"crc32", .u32, fi.crc32⟩]
    ⟨"compressedSize", .u32, fi.compressedSize⟩
    [⟨"uncompressedSize", .u32, fi.uncompressedSize⟩,
     ⟨"fileNameLength", .u16, fi.fileName.length⟩,
     ⟨"extraFieldLength", .u16, xlen⟩,
     ⟨"fileCommentLength", .u16, fi.fileComment.length⟩,
     ⟨"diskNumberStart", .u16, 0⟩,
     ⟨"internalFileAttributes", .u16, fi.internalFileAttributes⟩,
     ⟨"externalFileAttributes", .u32, fi.externalFileAttributes⟩,
     ⟨"relativeOffsetOfLocalHeader", .u32, fi.relativeOffsetOfLocalHeader⟩]
    tail h

theorem cd_slot24 (fi : FileInfo) (xlen : Nat) (tail : List Nat)
    (h : fi.uncompressedSize < 2 ^ 32) :
    readLE 4 ((payloadOf (cdHeaderEntries fi xlen) ++ tail).drop 24) =
      fi.uncompressedSize :=
  readLE_payload_pre
    [⟨"signature", .u32, Signatures.centralDirectoryHeader⟩,
     ⟨"versionMadeby", .u16, fi.versionMadeby⟩,
     ⟨"versionNeededToExtract", .u16, fi.versionNeededToExtract⟩,
     ⟨"generalPurposeBitFlag", .u16, fi.generalPurposeBitFlag⟩,
     ⟨"compressionMethod", .u16, fi.compressionMethod⟩,
     ⟨"lastModFileTime", .u16, fi.lastModFileTime⟩,
     ⟨"lastModFileDate", .u16, fi.lastModFileDate⟩,
     ⟨"crc32", .u32, fi.crc32⟩,
     ⟨"compressedSize", .u32, fi.compressedSize⟩]
    ⟨"uncompressedSize", .u32, fi.uncompressedSize⟩
    [⟨"fileNameLength", .u16, fi.fileName.length⟩,
     ⟨"extraFieldLength", .u16, xlen⟩,
     ⟨"fileCommentLength", .u16, fi.fileComment.length⟩,
     ⟨"diskNumberStart", .u16, 0⟩,
     ⟨"internalFileAttributes", .u16, fi.internalFileAttributes⟩,
     ⟨"externalFileAttributes", .u32, fi.externalFileAttributes⟩,
     ⟨"relativeOffsetOfLocalHeader", .u32, fi.relativeOffsetOfLocalHeader⟩]
    tail h

theorem cd_slot42 (fi : FileInfo) (xlen : Nat) (tail : List Nat)
    (h : fi.relativeOffsetOfLocalHeader < 2 ^ 32) :
    readLE 4 ((payloadOf (cdHeaderEntries fi xlen) ++ tail).drop 42) =
      fi.relativeOffsetOfLocalHeader :=
  readLE_payload_pre
    [⟨"signature", .u32, Signatures.centralDirectoryHeader⟩,
     ⟨"versionMadeby", .u16, fi.versionMadeby⟩,
     ⟨"versionNeededToExtract", .u16, fi.versionNeededToExtract⟩,
     ⟨"generalPurposeBitFlag", .u16, fi.generalPurposeBitFlag⟩,
     ⟨"compressionMethod", .u16, fi.compressionMethod⟩,
     ⟨"lastModFileTime", .u16, fi.lastModFileTime⟩,
     ⟨"lastModFileDate", .u16, fi.lastModFileDate⟩,
     ⟨"crc32", .u32, fi.crc32⟩,
     ⟨"compressedSize", .u32, fi.compressedSize⟩,
     ⟨"uncompressedSize", .u32, fi.uncompressedSize⟩,
     ⟨"fileNameLength", .u16, fi.fileName.length⟩,
     ⟨"extraFieldLength", .u16, xlen⟩,
     ⟨"fileCommentLength", .u16, fi.fileComment.length⟩,
     ⟨"diskNumberStart", .u16, 0⟩,
     ⟨"internalFileAttributes", .u16, fi.internalFileAttributes⟩,
     ⟨"externalFileAttributes", .u32, fi.externalFileAttributes⟩]
    ⟨"relativeOffsetOfLocalHeader", .u32, fi.relativeOffsetOfLocalHeader⟩
    [] tail h

theorem promoteInfo_true_fields (fi : FileInfo) :
    (promoteInfo fi true).compressedSize =
      (if 0xffffffff ≤ fi.uncompressedSize ∨ 0xffffffff ≤ fi.compressedSize
        then 0xffffffff else fi.compressedSize) ∧
    (promoteInfo fi true).uncompressedSize =
      (if 0xffffffff ≤ fi.uncompressedSize ∨ 0xffffffff ≤ fi.compressedSize
        then 0xffffffff else fi.uncompressedSize) ∧
    (promoteInfo fi true).relativeOffsetOfLocalHeader =
      (if 0xffffffff < fi.relativeOffsetOfLocalHeader
        then 0xffffffff else fi.relativeOffsetOfLocalHeader) ∧
    (promoteInfo fi true).fileName = fi.fileName ∧
    (promoteInfo fi true).fileComment = fi.fileComment := by
  by_cases h1 : 0xffffffff ≤ fi.uncompressedSize ∨ 0xffffffff ≤ fi.compressedSize <;>
    by_cases h2 : 0xffffffff < fi.relativeOffsetOfLocalHeader <;>
      simp [promoteInfo, h1, h2]

theorem zip64FieldsOf_true_fields (fi : FileInfo) :
    (zip64FieldsOf fi true).uncompressedSize =
      (if 0xffffffff ≤ fi.uncompressedSize ∨ 0xffffffff ≤ fi.compressedSize
        then some fi.uncompressedSize else none) ∧
    (zip64FieldsOf fi true).compressedSize =
      (if 0xffffffff ≤ fi.uncompressedSize ∨ 0xffffffff ≤ fi.compressedSize
        then some fi.compressedSize else none) ∧
    (zip64FieldsOf fi true).relativeOffsetOfLocalHeader =
      (if 0xffffffff < fi.relativeOffsetOfLocalHeader
        then some fi.relativeOffsetOfLocalHeader else none) := by
  by_cases h1 : 0xffffffff ≤ fi.uncompressedSize ∨ 0xffffffff ≤ fi.compressedSize <;>
    by_cases h2 : 0xffffffff < fi.relativeOffsetOfLocalHeader <;>
      simp [zip64FieldsOf, h1, h2]

theorem createFileHeader_true (fi : FileInfo) :
    createFileHeader fi true =
      payloadOf (cdHeaderEntries (promoteInfo fi true) (extraFieldOf fi true).length) ++
      ((promoteInfo fi true).fileName ++
        (extraFieldOf fi true ++ (promoteInfo fi true).fileComment)) := by
  simp [createFileHeader, List.append_assoc]

theorem cdHeader_payload_length (fi : FileInfo) (xlen : Nat) :
    (payloadOf (cdHeaderEntries fi xlen)).length = 46 := by
  rw [payloadOf_length]
  rfl

/-- C4: confirmed.  Building a central-directory header: when either size
reaches 0xFFFFFFFF both primary 32-bit size slots (byte offsets 20 and 24)
hold the sentinel and both true 64-bit values are captured for the ZIP64
extra field, else the slots hold the true values and neither is captured;
independently, when the local-header offset exceeds 0xFFFFFFFF its primary
slot (byte offset 42) holds the sentinel and the true offset is captured,
else the slot holds the true offset; the extra field is laid out as tag,
length, then uncompressed size, compressed size, offset, each present only
under its condition; it sits in the header bytes right after the file name;
and when nothing is captured no extra field is attached at all. -/
theorem c4_overflow_policy (fi : FileInfo) (hw : WellFormedInfo fi) :
    ((0xffffffff ≤ fi.uncompressedSize ∨ 0xffffffff ≤ fi.compressedSize) →
      readLE 4 ((createFileHeader fi true).drop 20) = 0xffffffff ∧
      readLE 4 ((createFileHeader fi true).drop 24) = 0xffffffff ∧
      (zip64FieldsOf fi true).uncompressedSize = some fi.uncompressedSize ∧
      (zip64FieldsOf fi true).compressedSize = some fi.compressedSize) ∧
    (fi.uncompressedSize < 0xffffffff ∧ fi.compressedSize < 0xffffffff →
      readLE 4 ((createFileHeader fi true).drop 20) = fi.compressedSize ∧
      readLE 4 ((createFileHeader fi true).drop 24) = fi.uncompressedSize ∧
      (zip64FieldsOf fi true).uncompressedSize = none ∧
      (zip64FieldsOf fi true).compressedSize = none) ∧
    (0xffffffff < fi.relativeOffsetOfLocalHeader →
      readLE 4 ((createFileHeader fi true).drop 42) = 0xffffffff ∧
      (zip64FieldsOf fi true).relativeOffsetOfLocalHeader =
        some fi.relativeOffsetOfLocalHeader) ∧
    (fi.relativeOffsetOfLocalHeader ≤ 0xffffffff →
      readLE 4 ((createFileHeader fi true).drop 42) = fi.relativeOffsetOfLocalHeader ∧
      (zip64FieldsOf fi true).relativeOffsetOfLocalHeader = none) ∧
    extraFieldOf fi true =
      (if 0 < (zip64FieldsOf fi true).count then
        writeLE 2 1 ++ writeLE 2 (8 * (zip64FieldsOf fi true).count) ++
        optWrite8 (zip64FieldsOf fi true).uncompressedSize ++
        optWrite8 (zip64FieldsOf fi true).compressedSize ++
        optWrite8 (zip64FieldsOf fi true).relativeOffsetOfLocalHeader
      else []) ∧
    (createFileHeader fi true).drop (46 + fi.fileName.length) =
      extraFieldOf fi true ++ fi.fileComment ∧
    ((zip64FieldsOf fi true).count = 0 →
      (createFileHeader fi true).length =
        46 + fi.fileName.length + fi.fileComment.length) := by
  have hp := promoteInfo_true_fields fi
  have hz := zip64FieldsOf_true_fields fi
  have hh := createFileHeader_true fi
  have hb1 : (promoteInfo fi true).compressedSize < 2 ^ 32 := by
    rw [hp.1]
    by_cases h1 : 0xffffffff ≤ fi.uncompressedSize ∨ 0xffffffff ≤ fi.compressedSize
    · rw [if_pos h1]; norm_num
    · rw [if_neg h1]
      push_neg at h1
      omega
  have hb2 : (promoteInfo fi true).uncompressedSize < 2 ^ 32 := by
    rw [hp.2.1]
    by_cases h1 : 0xffffffff ≤ fi.uncompressedSize ∨ 0xffffffff ≤ fi.compressedSize
    · rw [if_pos h1]; norm_num
    · rw [if_neg h1]
      push_neg at h1
      omega
  have hb3 : (promoteInfo fi true).relativeOffsetOfLocalHeader < 2 ^ 32 := by
    rw [hp.2.2.1]
    by_cases h2 : 0xffffffff < fi.relativeOffsetOfLocalHeader
    · rw [if_pos h2]; norm_num
    · rw [if_neg h2]
      omega
  have hs20 : readLE 4 ((createFileHeader fi true).drop 20) =
      (promoteInfo fi true).compressedSize := by
    rw [hh]
    exact cd_slot20 _ _ _ hb1
  have hs24 : readLE 4 ((createFileHeader fi true).drop 24) =
      (promoteInfo fi true).uncompressedSize := by
    rw [hh]
    exact cd_slot24 _ _ _ hb2
  have hs42 : readLE 4 ((createFileHeader fi true).drop 42) =
      (promoteInfo fi true).relativeOffsetOfLocalHeader := by
    rw [hh]
    exact cd_slot42 _ _ _ hb3
  refine ⟨?_, ?_, ?_, ?_, ?_, ?_, ?_⟩
  · intro h1
    exact ⟨by rw [hs20, hp.1, if_pos h1], by rw [hs24, hp.2.1, if_pos h1],
      by rw [hz.1, if_pos h1], by rw [hz.2.1, if_pos h1]⟩
  · intro h1
    have h1n : ¬(0xffffffff ≤ fi.uncompressedSize ∨ 0xffffffff ≤ fi.compressedSize) := by
      rintro (h | h) <;> omega
    exact ⟨by rw [hs20, hp.1, if_neg h1n], by rw [hs24, hp.2.1, if_neg h1n],
      by rw [hz.1, if_neg h1n], by rw [hz.2.1, if_neg h1n]⟩
  · intro h2
    exact ⟨by rw [hs42, hp.2.2.1, if_pos h2], by rw [hz.2.2, if_pos h2]⟩
  · intro h2
    have h2n : ¬(0xffffffff < fi.relativeOffsetOfLocalHeader) := by omega
    exact ⟨by rw [hs42, hp.2.2.1, if_neg h2n], by rw [hz.2.2, if_neg h2n]⟩
  · by_cases h1 : 0xffffffff ≤ fi.uncompressedSize ∨ 0xffffffff ≤ fi.compressedSize <;>
      by_cases h2 : 0xffffffff < fi.relativeOffsetOfLocalHeader <;>
        simp [extraFieldOf, createZIP64ExtraField, optWrite8, Zip64Fields.count,
          zip64FieldsOf, h1, h2]
  · rw [hh, show payloadOf (cdHeaderEntries (promoteInfo fi true)
        (extraFieldOf fi true).length) ++
        ((promoteInfo fi true).fileName ++
          (extraFieldOf fi true ++ (promoteInfo fi true).fileComment)) =
      (payloadOf (cdHeaderEntries (promoteInfo fi true)
        (extraFieldOf fi true).length) ++ (promoteInfo fi true).fileName) ++
        (extraFieldOf fi true ++ (promoteInfo fi true).fileComment) from by
      simp [List.append_assoc]]
    rw [drop_append_self _ _ (46 + fi.fileName.length) (by
      rw [List.length_append, cdHeader_payload_length, hp.2.2.2.1])]
    rw [hp.2.2.2.2]
  · intro hc
    have hext : extraFieldOf fi true = [] := by
      rw [extraFieldOf]
      simp only [hc]
      rfl
    rw [hh, hext]
    simp [cdHeader_payload_length, hp.2.2.2.1, hp.2.2.2.2]
    omega

/-- C3 counterexample: the promoted-iff claim fails as stated at the
boundary value.  For an entry whose local-header offset is exactly
0xFFFFFFFF (and small sizes), nothing is captured for the ZIP64 extra field
and no extra field is attached, yet the primary 32-bit offset slot of the
emitted header holds the sentinel bit pattern 0xFFFFFFFF, so "included in
the extra field iff the primary slot holds the sentinel" is violated. -/
theorem c3_iff_counterexample :
    (zip64FieldsOf c3Info true).relativeOffsetOfLocalHeader = none ∧
    extraFieldOf c3Info true = [] ∧
    readLE 4 ((createFileHeader c3Info true).drop 42) = 0xffffffff ∧
    c3Info.relativeOffsetOfLocalHeader = 0xffffffff :=
  ⟨rfl, rfl, by decide, rfl⟩

/-- C3 amended: for both sizes the iff holds for every input value — the
value is captured for the ZIP64 extra field exactly when the primary 32-bit
slot holds the sentinel 0xFFFFFFFF — but for relativeOffsetOfLocalHeader it
holds only away from the boundary: the promotion condition is strict (>),
so at offset exactly 0xFFFFFFFF the slot holds the sentinel pattern while
the extra field omits the offset. -/
theorem c3_promotion_iff_amended (fi : FileInfo) (hw : WellFormedInfo fi) :
    ((zip64FieldsOf fi true).uncompressedSize.isSome ↔
      readLE 4 ((createFileHeader fi true).drop 24) = 0xffffffff) ∧
    ((zip64FieldsOf fi true).compressedSize.isSome ↔
      readLE 4 ((createFileHeader fi true).drop 20) = 0xffffffff) ∧
    (fi.relativeOffsetOfLocalHeader ≠ 0xffffffff →
      ((zip64FieldsOf fi true).relativeOffsetOfLocalHeader.isSome ↔
        readLE 4 ((createFileHeader fi true).drop 42) = 0xffffffff)) := by
  clear hw
  have hp := promoteInfo_true_fields fi
  have hz := zip64FieldsOf_true_fields fi
  have hh := createFileHeader_true fi
  have hb1 : (promoteInfo fi true).compressedSize < 2 ^ 32 := by
    rw [hp.1]
    by_cases h1 : 0xffffffff ≤ fi.uncompressedSize ∨ 0xffffffff ≤ fi.compressedSize
    · rw [if_pos h1]; norm_num
    · rw [if_neg h1]
      push_neg at h1
      omega
  have hb2 : (promoteInfo fi true).uncompressedSize < 2 ^ 32 := by
    rw [hp.2.1]
    by_cases h1 : 0xffffffff ≤ fi.uncompressedSize ∨ 0xffffffff ≤ fi.compressedSize
    · rw [if_pos h1]; norm_num
    · rw [if_neg h1]
      push_neg at h1
      omega
  have hb3 : (promoteInfo fi true).relativeOffsetOfLocalHeader < 2 ^ 32 := by
    rw [hp.2.2.1]
    by_cases h2 : 0xffffffff < fi.relativeOffsetOfLocalHeader
    · rw [if_pos h2]; norm_num
    · rw [if_neg h2]
      omega
  have hs20 : readLE 4 ((createFileHeader fi true).drop 20) =
      (promoteInfo fi true).compressedSize := by
    rw [hh]
    exact cd_slot20 _ _ _ hb1
  have hs24 : readLE 4 ((createFileHeader fi true).drop 24) =
      (promoteInfo fi true).uncompressedSize := by
    rw [hh]
    exact cd_slot24 _ _ _ hb2
  have hs42 : readLE 4 ((createFileHeader fi true).drop 42) =
      (promoteInfo fi true).relativeOffsetOfLocalHeader := by
    rw [hh]
    exact cd_slot42 _ _ _ hb3
  refine ⟨?_, ?_, ?_⟩
  · constructor
    · intro hsome
      by_cases h1 : 0xffffffff ≤ fi.uncompressedSize ∨ 0xffffffff ≤ fi.compressedSize
      · rw [hs24, hp.2.1, if_pos h1]
      · rw [hz.1, if_neg h1] at hsome
        simp at hsome
    · intro hsent
      by_cases h1 : 0xffffffff ≤ fi.uncompressedSize ∨ 0xffffffff ≤ fi.compressedSize
      · rw [hz.1, if_pos h1]
        rfl
      · rw [hs24, hp.2.1, if_neg h1] at hsent
        push_neg at h1
        omega
  · constructor
    · intro hsome
      by_cases h1 : 0xffffffff ≤ fi.uncompressedSize ∨ 0xffffffff ≤ fi.compressedSize
      · rw [hs20, hp.1, if_pos h1]
      · rw [hz.2.1, if_neg h1] at hsome
        simp at hsome
    · intro hsent
      by_cases h1 : 0xffffffff ≤ fi.uncompressedSize ∨ 0xffffffff ≤ fi.compressedSize
      · rw [hz.2.1, if_pos h1]
        rfl
      · rw [hs20, hp.1, if_neg h1] at hsent
        push_neg at h1
        omega
  · intro hne
    constructor
    · intro hsome
      by_cases h2 : 0xffffffff < fi.relativeOffsetOfLocalHeader
      · rw [hs42, hp.2.2.1, if_pos h2]
      · rw [hz.2.2, if_neg h2] at hsome
        simp at hsome
    · intro hsent
      by_cases h2 : 0xffffffff < fi.relativeOffsetOfLocalHeader
      · rw [hz.2.2, if_pos h2]
        rfl
      · rw [hs42, hp.2.2.1, if_neg h2] at hsent
        exact absurd hsent hne

theorem c3_promotion_iff_amended_witness :
    WellFormedInfo (createFileInfoObject [97] 0) ∧
    (createFileInfoObject [97] 0).relativeOffsetOfLocalHeader ≠ 0xffffffff ∧
    ((zip64FieldsOf (createFileInfoObject [97] 0) true).relativeOffsetOfLocalHeader.isSome ↔
      readLE 4 ((createFileHeader (createFileInfoObject [97] 0) true).drop 42) =
        0xffffffff) :=
  ⟨by decide, by decide,
    (c3_promotion_iff_amended (createFileInfoObject [97] 0) (by decide)).2.2 (by decide)⟩

theorem c4_overflow_policy_witness :
    WellFormedInfo { createFileInfoObject [97] 5 with uncompressedSize := 0x100000000 } ∧
    (0xffffffff ≤ ({ createFileInfoObject [97] 5 with
        uncompressedSize := 0x100000000 } : FileInfo).uncompressedSize ∨
      0xffffffff ≤ ({ createFileInfoObject [97] 5 with
        uncompressedSize := 0x100000000 } : FileInfo).compressedSize) ∧
    (readLE 4 ((createFileHeader { createFileInfoObject [97] 5 with
        uncompressedSize := 0x100000000 } true).drop 20) = 0xffffffff ∧
     readLE 4 ((createFileHeader { createFileInfoObject [97] 5 with
        uncompressedSize := 0x100000000 } true).drop 24) = 0xffffffff ∧
     (zip64FieldsOf { createFileInfoObject [97] 5 with
        uncompressedSize := 0x100000000 } true).uncompressedSize = some 0x100000000 ∧
     (zip64FieldsOf { createFileInfoObject [97] 5 with
        uncompressedSize := 0x100000000 } true).compressedSize = some 0) :=
  ⟨by decide, by decide,
    (c4_overflow_policy { createFileInfoObject [97] 5 with
      uncompressedSize := 0x100000000 } (by decide)).1 (by decide)⟩
